import Mathlib

/-!
# Verification of the isla symbolic-evaluator core

A shallow embedding of the primop layer (`src/primop.rs`), the IR pre-pass
(`src/ast.rs`) and the litmus front end (`src/isla-lib/src/litmus.rs`), with
theorems settling the specification claims.

Conventions of the embedding:
* Rust `u32`/`u64`/`usize` values are `Nat` with explicit `% 2^w` where wrapping
  matters; `i64`/`i128` are `Int`.
* Interned symbol-table names (`u32`) are `Nat`.
* `HashMap`/`HashSet` are association lists (insert overwrites) / `Finset`.
* Fallible Rust code returns `Except`; a Rust `panic!`/failed `assert!` is the
  distinguished `rustPanic` outcome, distinct from every `ExecError` result.
* The debug payloads (`{:?}`) interpolated into `ExecError::Type` messages are
  elided: only the format-string prefix is kept.  Error strings built without
  interpolation are kept verbatim.
* Stateful primops of type `fn(Val, .., &mut Solver) -> Result<Val, ExecError>`
  become functions `Val → .. → Solver → PrimOut × Solver` with explicit state
  passing; the returned solver reflects all mutations made before returning.
-/

set_option linter.unusedVariables false

/-- Modelled from the spec (§3, `concrete.rs` is not under `src/`): the concrete
bit-vector type `Sbits`/`B64`, a width together with the unsigned value of the
bits; well-formed values keep `bits < 2 ^ length`. -/
structure Sbits where
  length : Nat
  bits : Nat
deriving DecidableEq, Repr

/-- Modelled from the spec: `BV::zeros(w)`, the all-zero bitvector of width `w`. -/
def Sbits.zeros (w : Nat) : Sbits := ⟨w, 0⟩

/-- Modelled from the spec: `BV::is_zero`, true when every bit is clear. -/
def Sbits.is_zero (bv : Sbits) : Bool := bv.bits == 0

/-- Modelled from the spec (§4.1): concrete `slice`, the `len`-wide extract
starting at bit `frm`; `none` when the slice does not fit into the width. -/
def Sbits.slice (bv : Sbits) (frm len : Nat) : Option Sbits :=
  if frm + len ≤ bv.length then some ⟨len, (bv.bits >>> frm) % 2 ^ len⟩ else none

/-- Modelled from the spec (§4.1): concrete `set_slice`, which
"masks the target via `(~(mask_lower(len, update_len) << n)) & bv | (update << n)`". -/
def Sbits.set_slice (bv : Sbits) (n : Nat) (update : Sbits) : Sbits :=
  ⟨bv.length,
    (bv.bits &&& ((2 ^ bv.length - 1) ^^^ ((2 ^ update.length - 1) <<< n % 2 ^ bv.length))) |||
      update.bits <<< n % 2 ^ bv.length⟩

/-- Modelled from the spec (§3, `ir.rs` is not under `src/`): an enum value
carries an (enum-id, member-id) pair. -/
structure EnumMember where
  enum_id : Nat
  member : Nat
deriving DecidableEq, Repr

/-- Modelled from the spec (`smt/smtlib.rs` is not under `src/`): SMT
expressions of the solver facade.  Exactly the constructors built by the
embedded functions are included.  `Bits` is a little-endian list of booleans
(index 0 is the least significant bit, as in `smt_i128`); `Bits64` is a value
of at most 64 bits together with its width. -/
inductive Exp where
  | Var (v : Nat)
  | Bits (bv : List Bool)
  | Bits64 (bits : Nat) (length : Nat)
  | Bool (b : Bool)
  | Enum (e : EnumMember)
  | Eq (lhs rhs : Exp)
  | Neq (lhs rhs : Exp)
  | And (lhs rhs : Exp)
  | Or (lhs rhs : Exp)
  | Not (e : Exp)
  | Ite (c t e : Exp)
  | Bvnot (e : Exp)
  | Bvand (lhs rhs : Exp)
  | Bvor (lhs rhs : Exp)
  | Bvadd (lhs rhs : Exp)
  | Bvshl (lhs rhs : Exp)
  | Bvlshr (lhs rhs : Exp)
  | Extract (high low : Nat) (e : Exp)
  | ZeroExtend (n : Nat) (e : Exp)
  | SignExtend (n : Nat) (e : Exp)
deriving DecidableEq, Repr

/-- Modelled from the spec (`smt/smtlib.rs` is not under `src/`): the solver
trace items the embedded functions emit (`smtlib::Def`; named `SmtDef` here to
keep `Def` for the IR definitions of `ast.rs`). -/
inductive SmtDef where
  | DefineConst (v : Nat) (e : Exp)
  | Assert (e : Exp)
deriving DecidableEq, Repr

/-- Modelled from the spec (§2/§9, the `Solver` facade is not under `src/`):
fresh-symbol counter, the linear trace of added definitions, and the
`sym → width` table used by `solver.length`. -/
structure Solver where
  fresh_count : Nat
  defs : List SmtDef
  lengths : List (Nat × Nat)
deriving DecidableEq, Repr

/-- `Solver::fresh`: allocate the next symbol. -/
def Solver.fresh (s : Solver) : Nat × Solver :=
  (s.fresh_count, { s with fresh_count := s.fresh_count + 1 })

/-- `Solver::add`: append a definition to the trace. -/
def Solver.add (s : Solver) (d : SmtDef) : Solver :=
  { s with defs := s.defs ++ [d] }

/-- `Solver::define_const`: allocate a fresh symbol and define it. -/
def Solver.define_const (s : Solver) (e : Exp) : Nat × Solver :=
  let (v, s) := s.fresh
  (v, s.add (SmtDef.DefineConst v e))

/-- `Solver::length`: the width of a symbolic bitvector, if known. -/
def Solver.length (s : Solver) (v : Nat) : Option Nat :=
  (s.lengths.find? (fun p => p.1 == v)).map (fun p => p.2)

/-- Modelled from the spec (§7, `error.rs` is not under `src/`): the execution
error taxonomy.  `Type` debug payloads are elided to the format-string prefix. -/
inductive ExecError where
  | Type (msg : String)
  | Overflow
  | SymbolicLength (loc : String)
  | OutOfBounds (loc : String)
  | AssertionFailed (msg : String)
  | Unimplemented
deriving DecidableEq, Repr

/-- Modelled from the spec (§3 value table, `ir.rs` is not under `src/`): the
universal runtime value.  Struct field maps (`HashMap<u32, Val>`) are
association lists; `Vector`/`List` are Lean lists (for `List` the head of the
Sail list is the LAST element, matching the `Vec` representation used by
`cons`/`op_head`/`op_tail` in `primop.rs`). -/
inductive Val where
  | Symbolic (v : Nat)
  | I64 (n : Int)
  | I128 (n : Int)
  | Bool (b : Bool)
  | Bits (bv : Sbits)
  | String (s : String)
  | Unit
  | Vector (vals : List Val)
  | List (vals : List Val)
  | Enum (e : EnumMember)
  | Struct (fields : List (Nat × Val))
  | Ref (n : Nat)
  | Poison

/-- The outcome of running a primop (or front-end helper): a value, an
`ExecError`, or a Rust panic (`panic!` / failed `assert!`). -/
inductive PrimOut where
  | ok (v : Val)
  | err (e : ExecError)
  | rustPanic (msg : String)

/-- Truncating cast to `u32` (`as u32` in Rust). -/
def u32cast (i : Int) : Nat := (i % 2 ^ 32).toNat

/-- Truncating cast to `u64` (`as u64` in Rust). -/
def u64cast (i : Int) : Nat := (i % 2 ^ 64).toNat

/-- `smt_i128`: the 128-bit SMT literal of an `i128`, bit `n` of the list being
bit `n` of the two's-complement value. -/
def smt_i128 (i : Int) : Exp :=
  Exp.Bits ((List.range 128).map (fun n => Int.fdiv i (2 ^ n) % 2 == 1))

/-- `smt_i64`: the 64-bit SMT literal of an `i64`. -/
def smt_i64 (i : Int) : Exp :=
  Exp.Bits ((List.range 64).map (fun n => Int.fdiv i (2 ^ n) % 2 == 1))

/-- `smt_mask_lower`: a `len`-wide literal whose low `mask_width` bits are set. -/
def smt_mask_lower (len mask_width : Nat) : Exp :=
  Exp.Bits ((List.range len).map (fun i => decide (i < mask_width)))

/-- `smt_sbits`: the SMT literal of a concrete bitvector.  For the 64-bit
backed `B64`/`Sbits` the `try_into` of the source always succeeds, so this is
always a `Bits64`. -/
def smt_sbits (bv : Sbits) : Exp := Exp.Bits64 bv.bits bv.length

/-- `smt_value`: convert base values into SMT equivalents. -/
def smt_value : Val → Except ExecError Exp
  | Val.I128 n => Except.ok (smt_i128 n)
  | Val.I64 n => Except.ok (smt_i64 n)
  | Val.Bits bv => Except.ok (smt_sbits bv)
  | Val.Bool b => Except.ok (Exp.Bool b)
  | Val.Enum e => Except.ok (Exp.Enum e)
  | Val.Symbolic v => Except.ok (Exp.Var v)
  | _ => Except.error (ExecError.Type "smt_value")

/-- `add_int` (`primop.rs` lines 404–426): 128-bit integer addition with the
zero short-circuits on the mixed concrete/symbolic cases. -/
def add_int (x y : Val) (solver : Solver) : PrimOut × Solver :=
  match x, y with
  | Val.Symbolic x, Val.Symbolic y =>
    let (v, s) := solver.define_const (Exp.Bvadd (Exp.Var x) (Exp.Var y))
    (PrimOut.ok (Val.Symbolic v), s)
  | Val.Symbolic x, Val.I128 y =>
    if y ≠ 0 then
      let (v, s) := solver.define_const (Exp.Bvadd (Exp.Var x) (smt_i128 y))
      (PrimOut.ok (Val.Symbolic v), s)
    else (PrimOut.ok (Val.Symbolic x), solver)
  | Val.I128 x, Val.Symbolic y =>
    if x ≠ 0 then
      let (v, s) := solver.define_const (Exp.Bvadd (smt_i128 x) (Exp.Var y))
      (PrimOut.ok (Val.Symbolic v), s)
    else (PrimOut.ok (Val.Symbolic y), solver)
  | Val.I128 x, Val.I128 y => (PrimOut.ok (Val.I128 ((x + y + 2 ^ 127) % 2 ^ 128 - 2 ^ 127)), solver)
  | x, y => (PrimOut.err (ExecError.Type "add_int"), solver)

/-- `cons` (`primop.rs` lines 1790–1800): push the new head at the END of the
underlying vector (with the `Poison` hack for uninitialised lists). -/
def cons (x xs : Val) (solver : Solver) : PrimOut × Solver :=
  match xs with
  | Val.Poison => (PrimOut.ok (Val.List [x]), solver)
  | Val.List xs => (PrimOut.ok (Val.List (xs ++ [x])), solver)
  | _ => (PrimOut.err (ExecError.Type "cons"), solver)

/-- `op_head` (`primop.rs` lines 301–309): `Vec::pop` the last element. -/
def op_head (xs : Val) (solver : Solver) : PrimOut × Solver :=
  match xs with
  | Val.List xs =>
    match xs.getLast? with
    | some x => (PrimOut.ok x, solver)
    | none => (PrimOut.err (ExecError.Type "op_head (list empty)"), solver)
  | _ => (PrimOut.err (ExecError.Type "op_head"), solver)

/-- `op_tail` (`primop.rs` lines 311–319): `Vec::pop` and return the rest. -/
def op_tail (xs : Val) (solver : Solver) : PrimOut × Solver :=
  match xs with
  | Val.List xs => (PrimOut.ok (Val.List xs.dropLast), solver)
  | _ => (PrimOut.err (ExecError.Type "op_tail"), solver)

mutual

/-- `eq_anything` (`primop.rs` lines 1540–1587); the struct case delegates to
`eq_struct_fields`. -/
def eq_anything (x y : Val) (solver : Solver) : PrimOut × Solver :=
  match x, y with
  | Val.Symbolic lhs, Val.Symbolic rhs =>
    let (v, s) := solver.define_const (Exp.Eq (Exp.Var lhs) (Exp.Var rhs))
    (PrimOut.ok (Val.Symbolic v), s)
  | lhs, Val.Symbolic rhs =>
    match smt_value lhs with
    | Except.error e => (PrimOut.err e, solver)
    | Except.ok el =>
      let (v, s) := solver.define_const (Exp.Eq el (Exp.Var rhs))
      (PrimOut.ok (Val.Symbolic v), s)
  | Val.Symbolic lhs, rhs =>
    match smt_value rhs with
    | Except.error e => (PrimOut.err e, solver)
    | Except.ok er =>
      let (v, s) := solver.define_const (Exp.Eq (Exp.Var lhs) er)
      (PrimOut.ok (Val.Symbolic v), s)
  | Val.Bits lhs, Val.Bits rhs => (PrimOut.ok (Val.Bool (lhs = rhs)), solver)
  | Val.Enum lhs, Val.Enum rhs => (PrimOut.ok (Val.Bool (lhs = rhs)), solver)
  | Val.Bool lhs, Val.Bool rhs => (PrimOut.ok (Val.Bool (lhs = rhs)), solver)
  | Val.I128 lhs, Val.I128 rhs => (PrimOut.ok (Val.Bool (lhs = rhs)), solver)
  | Val.I64 lhs, Val.I64 rhs => (PrimOut.ok (Val.Bool (lhs = rhs)), solver)
  | Val.Struct lhs, Val.Struct rhs => eq_struct_fields lhs rhs [] solver
  | lhs, rhs => (PrimOut.err (ExecError.Type "eq_anything"), solver)

termination_by sizeOf x + sizeOf y

/-- The `for (k, lhs_v) in lhs` loop of `eq_anything`'s struct case: `vars`
accumulates pending symbolic equalities; the final step pops the last variable
and folds `And` over the earlier ones. -/
def eq_struct_fields (lhs rhs : List (Nat × Val)) (vars : List Nat) (solver : Solver) :
    PrimOut × Solver :=
  match lhs with
  | [] =>
    match vars.getLast? with
    | none => (PrimOut.ok (Val.Bool true), solver)
    | some init =>
      let e := vars.dropLast.foldl (fun e1 v => Exp.And e1 (Exp.Var v)) (Exp.Var init)
      let (v, s) := solver.define_const e
      (PrimOut.ok (Val.Symbolic v), s)
  | (k, lhs_v) :: rest =>
    match hfind : rhs.find? (fun p => p.1 == k) with
    | none => (PrimOut.err (ExecError.Type "eq_anything None"), solver)
    | some p =>
      match eq_anything lhs_v p.2 solver with
      | (PrimOut.ok (Val.Bool true), s) => eq_struct_fields rest rhs vars s
      | (PrimOut.ok (Val.Bool false), s) => (PrimOut.ok (Val.Bool false), s)
      | (PrimOut.ok (Val.Symbolic r), s) => eq_struct_fields rest rhs (vars ++ [r]) s
      | (PrimOut.ok other, s) => (PrimOut.err (ExecError.Type "eq_anything"), s)
      | (out, s) => (out, s)
termination_by sizeOf lhs + sizeOf rhs
decreasing_by
  all_goals simp_wf
  all_goals
    have h1 := List.sizeOf_lt_of_mem (List.mem_of_find?_eq_some hfind)
  all_goals obtain ⟨a, b⟩ := p
  all_goals simp at h1 ⊢
  all_goals omega

end

/-- `op_eq` (`primop.rs` lines 271–284): the NULL-list hack, falling through to
`eq_anything` for non-list operands. -/
def op_eq (x y : Val) (solver : Solver) : PrimOut × Solver :=
  match x, y with
  | Val.List xs, Val.List ys =>
    if xs.length ≠ ys.length then (PrimOut.ok (Val.Bool false), solver)
    else if xs.isEmpty && ys.isEmpty then (PrimOut.ok (Val.Bool true), solver)
    else (PrimOut.err (ExecError.Type "op_eq"), solver)
  | x, y => eq_anything x y solver

/-- `length_bits` (`primop.rs` lines 709–719): the length of a concrete or
symbolic bitvector (reads the solver, never mutates it). -/
def length_bits (bits : Val) (solver : Solver) : Except ExecError Nat :=
  match bits with
  | Val.Bits bv => Except.ok bv.length
  | Val.Symbolic b =>
    match solver.length b with
    | some len => Except.ok len
    | none => Except.error (ExecError.Type "length_bits (solver cannot determine length)")
  | _ => Except.error (ExecError.Type "length_bits")

/-- The `slice!` macro (`primop.rs` lines 721–779): symbolic slice for anything
represented as an SMT bitvector.  `bits` is the SMT term, `frm` the offset
value, `slice_length` the requested length as an `i128`.  The leading
`assert!((slice_length as u32) <= bits_length)` is the `rustPanic` case. -/
def slice_sym (bits_length : Nat) (bits : Exp) (frm : Val) (slice_length : Int)
    (solver : Solver) : PrimOut × Solver :=
  if ¬ u32cast slice_length ≤ bits_length then
    (PrimOut.rustPanic "assertion failed: (slice_length as u32) <= bits_length", solver)
  else if slice_length = 0 then (PrimOut.ok (Val.Bits (Sbits.zeros 0)), solver)
  else
    match frm with
    | Val.Symbolic frm =>
      let (sliced, s) := solver.fresh
      let shift : Exp :=
        if bits_length > 128 then Exp.ZeroExtend (bits_length - 128) (Exp.Var frm)
        else if bits_length < 128 then Exp.Extract (bits_length - 1) 0 (Exp.Var frm)
        else Exp.Var frm
      (PrimOut.ok (Val.Symbolic sliced),
        s.add (SmtDef.DefineConst sliced
          (Exp.Extract (u32cast slice_length - 1) 0 (Exp.Bvlshr bits shift))))
    | Val.I128 frm =>
      let (sliced, s) := solver.fresh
      if frm = 0 ∧ u32cast slice_length = bits_length then
        (PrimOut.ok (Val.Symbolic sliced), s.add (SmtDef.DefineConst sliced bits))
      else
        (PrimOut.ok (Val.Symbolic sliced),
          s.add (SmtDef.DefineConst sliced
            (Exp.Extract (u32cast (frm + slice_length - 1)) (u32cast frm) bits)))
    | Val.I64 frm =>
      let (sliced, s) := solver.fresh
      if frm = 0 ∧ u32cast slice_length = bits_length then
        (PrimOut.ok (Val.Symbolic sliced), s.add (SmtDef.DefineConst sliced bits))
      else
        (PrimOut.ok (Val.Symbolic sliced),
          s.add (SmtDef.DefineConst sliced
            (Exp.Extract (u32cast (frm + slice_length - 1)) (u32cast frm) bits)))
    | _ => (PrimOut.err (ExecError.Type "slice!"), solver)

/-- `op_slice` (`primop.rs` lines 780–799): slice with a machine-integer offset
and a constant length, including the all-zero concrete short-circuit. -/
def op_slice (bits frm : Val) (length : Nat) (solver : Solver) : PrimOut × Solver :=
  match length_bits bits solver with
  | Except.error e => (PrimOut.err e, solver)
  | Except.ok bits_length =>
    match bits with
    | Val.Symbolic bits => slice_sym bits_length (Exp.Var bits) frm (Int.ofNat length) solver
    | Val.Bits bv =>
      match frm with
      | Val.I64 frm =>
        match bv.slice (u32cast frm) length with
        | some bits => (PrimOut.ok (Val.Bits bits), solver)
        | none => (PrimOut.err (ExecError.Type "op_slice (can't slice)"), solver)
      | frm =>
        if bv.is_zero then (PrimOut.ok (Val.Bits (Sbits.zeros bits_length)), solver)
        else slice_sym bits_length (smt_sbits bv) frm (Int.ofNat length) solver
    | _ => (PrimOut.err (ExecError.Type "op_slice"), solver)

/-- The `set_slice!` macro (`primop.rs` lines 1164–1198): the fully symbolic
`set_slice` with a shifted mask. -/
def set_slice_sym (bits_length update_length : Nat) (bits n update : Exp)
    (solver : Solver) : PrimOut × Solver :=
  if bits_length = 0 then (PrimOut.ok (Val.Bits (Sbits.zeros 0)), solver)
  else if update_length = 0 then
    let (v, s) := solver.define_const bits
    (PrimOut.ok (Val.Symbolic v), s)
  else
    let mask_lower := smt_mask_lower bits_length update_length
    let update :=
      if bits_length = update_length then update
      else Exp.ZeroExtend (bits_length - update_length) update
    let shift : Exp :=
      if bits_length < 128 then Exp.Extract (bits_length - 1) 0 n
      else if bits_length > 128 then Exp.ZeroExtend (bits_length - 128) n
      else n
    let (sliced, s) := solver.fresh
    (PrimOut.ok (Val.Symbolic sliced),
      s.add (SmtDef.DefineConst sliced
        (Exp.Bvor
          (Exp.Bvand bits (Exp.Bvnot (Exp.Bvshl mask_lower shift)))
          (Exp.Bvshl update shift))))

/-- The `set_slice_n0!` macro (`primop.rs` lines 1200–1225): the special case
of `set_slice!` for `n = 0`, with no shift applied. -/
def set_slice_n0_sym (bits_length update_length : Nat) (bits update : Exp)
    (solver : Solver) : PrimOut × Solver :=
  if bits_length = 0 then (PrimOut.ok (Val.Bits (Sbits.zeros 0)), solver)
  else if update_length = 0 then
    let (v, s) := solver.define_const bits
    (PrimOut.ok (Val.Symbolic v), s)
  else
    let mask_lower := smt_mask_lower bits_length update_length
    let update :=
      if bits_length = update_length then update
      else Exp.ZeroExtend (bits_length - update_length) update
    let (sliced, s) := solver.fresh
    (PrimOut.ok (Val.Symbolic sliced),
      s.add (SmtDef.DefineConst sliced
        (Exp.Bvor (Exp.Bvand bits (Exp.Bvnot mask_lower)) update)))

/-- `set_slice_internal` (`primop.rs` lines 1227–1276): dispatch over the
concrete/symbolic shapes of the target, the offset and the update. -/
def set_slice_internal (bits n update : Val) (solver : Solver) : PrimOut × Solver :=
  match length_bits bits solver with
  | Except.error e => (PrimOut.err e, solver)
  | Except.ok bits_length =>
    match length_bits update solver with
    | Except.error e => (PrimOut.err e, solver)
    | Except.ok update_length =>
      match bits, n, update with
      | Val.Symbolic bits, Val.Symbolic n, Val.Symbolic update =>
        set_slice_sym bits_length update_length (Exp.Var bits) (Exp.Var n) (Exp.Var update)
          solver
      | Val.Symbolic bits, Val.Symbolic n, Val.Bits update =>
        set_slice_sym bits_length update_length (Exp.Var bits) (Exp.Var n) (smt_sbits update)
          solver
      | Val.Symbolic bits, Val.I128 n, Val.Symbolic update =>
        if n = 0 then
          set_slice_n0_sym bits_length update_length (Exp.Var bits) (Exp.Var update) solver
        else
          set_slice_sym bits_length update_length (Exp.Var bits) (smt_i128 n) (Exp.Var update)
            solver
      | Val.Symbolic bits, Val.I128 n, Val.Bits update =>
        if n = 0 then
          if bits_length = update_length then (PrimOut.ok (Val.Bits update), solver)
          else
            set_slice_n0_sym bits_length update_length (Exp.Var bits) (smt_sbits update) solver
        else
          set_slice_sym bits_length update_length (Exp.Var bits) (smt_i128 n)
            (smt_sbits update) solver
      | Val.Bits bits, Val.Symbolic n, Val.Symbolic update =>
        set_slice_sym bits_length update_length (smt_sbits bits) (Exp.Var n) (Exp.Var update)
          solver
      | Val.Bits bits, Val.Symbolic n, Val.Bits update =>
        set_slice_sym bits_length update_length (smt_sbits bits) (Exp.Var n)
          (smt_sbits update) solver
      | Val.Bits bits, Val.I128 n, Val.Symbolic update =>
        if n = 0 then
          set_slice_n0_sym bits_length update_length (smt_sbits bits) (Exp.Var update) solver
        else
          set_slice_sym bits_length update_length (smt_sbits bits) (smt_i128 n)
            (Exp.Var update) solver
      | Val.Bits bits, Val.I128 n, Val.Bits update =>
        (PrimOut.ok (Val.Bits (bits.set_slice (u32cast n) update)), solver)
      | _, _, _ => (PrimOut.err (ExecError.Type "set_slice"), solver)

/-- `Ty` from `ast.rs`: IR types over interned names. -/
inductive Ty where
  | Lint
  | Fint (sz : Nat)
  | Constant (c : Int)
  | Lbits
  | Sbits (sz : Nat)
  | Fbits (sz : Nat)
  | Unit
  | Bool
  | Bit
  | String
  | Real
  | Enum (e : Nat)
  | Struct (s : Nat)
  | Union (u : Nat)
  | Vector (ty : Ty)
  | List (ty : Ty)
  | Ref (ty : Ty)
deriving DecidableEq, Repr

/-- `Loc` from `ast.rs` (named `AstLoc` to keep `Loc` for the litmus one). -/
inductive AstLoc where
  | Id (v : Nat)
  | Field (loc : AstLoc) (field : Nat)
  | Addr (loc : AstLoc)
deriving DecidableEq, Repr

/-- `Op` from `ast.rs`: IR operators. -/
inductive Op where
  | Not
  | Or
  | And
  | Eq
  | Neq
  | Lteq
  | Lt
  | Slice (n : Nat)
  | Signed (n : Nat)
  | Unsigned (n : Nat)
  | Bvnot
  | Bvor
  | Bvxor
  | Bvand
  | Bvadd
  | Bvsub
  | Bvaccess
  | Concat
  | BitToBool
deriving DecidableEq, Repr

/-- `Bit` from `ast.rs`. -/
inductive Bit where
  | B0
  | B1
deriving DecidableEq, Repr

/-- `Exp` from `ast.rs` (named `AstExp`; `Exp` is kept for the SMT terms). -/
inductive AstExp where
  | Id (v : Nat)
  | Ref (reg : Nat)
  | Bool (b : Bool)
  | Bit (b : Bit)
  | Bits (bv : Sbits)
  | String (s : String)
  | Unit
  | Int (i : Int)
  | Struct (s : Nat) (fields : List (Nat × AstExp))
  | Kind (ctor : Nat) (e : AstExp)
  | Unwrap (ctor : Nat) (e : AstExp)
  | Field (e : AstExp) (field : Nat)
  | Call (op : Op) (args : List AstExp)

/-- `Instr` from `ast.rs`: IR instructions. -/
inductive Instr where
  | Decl (v : Nat) (ty : Ty)
  | Init (v : Nat) (ty : Ty) (e : AstExp)
  | Jump (e : AstExp) (target : Nat)
  | Goto (target : Nat)
  | Copy (loc : AstLoc) (e : AstExp)
  | Call (loc : AstLoc) (ext : Bool) (f : Nat) (args : List AstExp)
  | Primop (loc : AstLoc) (f : Nat) (args : List AstExp)
  | Failure
  | Arbitrary
  | End

/-- `Def` from `ast.rs`: IR toplevel definitions. -/
inductive Def where
  | Register (reg : Nat) (ty : Ty)
  | Let (bindings : List (Nat × Ty)) (setup : List Instr)
  | Enum (e : Nat) (ctors : List Nat)
  | Struct (s : Nat) (fields : List (Nat × Ty))
  | Union (u : Nat) (ctors : List (Nat × Ty))
  | Val (f : Nat) (args : List Ty) (ret : Ty)
  | Fn (f : Nat) (args : List Nat) (body : List Instr)

/-- The first loop of `insert_primops` (`ast.rs` lines 315–328): collect names
with a `Val` signature, removing any that later gains an `Fn` body. -/
def primop_scan (defs : List Def) : Finset Nat :=
  defs.foldl
    (fun s d =>
      match d with
      | Def.Val f _ _ => insert f s
      | Def.Fn f _ _ => s.erase f
      | _ => s)
    ∅

/-- The per-instruction rewrite of `insert_primops`' second loop: a `Call`
whose target is in the primop set becomes a `Primop` with the same location,
name and arguments. -/
def rewrite_call (primops : Finset Nat) (i : Instr) : Instr :=
  match i with
  | Instr.Call loc ext f args =>
    if f ∈ primops then Instr.Primop loc f args else Instr.Call loc ext f args
  | i => i

/-- `insert_primops` (`ast.rs` lines 315–349): returns the primop set and the
rewritten definitions (the Rust version mutates `defs` in place; only `Fn`
bodies are touched by the second loop). -/
def insert_primops (defs : List Def) : Finset Nat × List Def :=
  let primops := primop_scan defs
  (primops,
    defs.map
      (fun d =>
        match d with
        | Def.Fn f args body => Def.Fn f args (body.map (rewrite_call primops))
        | d => d))

/-- The instructions contained in a definition (`Let` setup blocks and `Fn`
bodies are the only instruction carriers in `Def`). -/
def instrs_of_def : Def → List Instr
  | Def.Let _ setup => setup
  | Def.Fn _ _ body => body
  | _ => []

/-- The target of a `Call` instruction, if the instruction is a `Call`. -/
def call_target : Instr → Option Nat
  | Instr.Call _ _ f _ => some f
  | _ => none

/-- Whether an instruction is a `Primop` node. -/
def is_primop : Instr → Bool
  | Instr.Primop _ _ _ => true
  | _ => false

/-- Whether `defs` declares a `Val` signature for `f`. -/
def has_val (defs : List Def) (f : Nat) : Bool :=
  defs.any fun d =>
    match d with
    | Def.Val g _ _ => g == f
    | _ => false

/-- Whether `defs` contains an `Fn` body for `f`. -/
def has_fn (defs : List Def) (f : Nat) : Bool :=
  defs.any fun d =>
    match d with
    | Def.Fn g _ _ => g == f
    | _ => false

/-- A name is signature-only when it has a `Val` signature but no `Fn` body. -/
def sig_only (defs : List Def) (f : Nat) : Bool :=
  has_val defs f && !has_fn defs f

/-- No instruction anywhere in `defs` is a `Primop` node. -/
def no_primop_instr (defs : List Def) : Prop :=
  ∀ d ∈ defs, ∀ i ∈ instrs_of_def d, is_primop i = false

/-- Association-list lookup: the model of `HashMap::get`. -/
def alist_lookup {κ α : Type} [BEq κ] (m : List (κ × α)) (k : κ) : Option α :=
  (m.find? (fun p => p.1 == k)).map (fun p => p.2)

/-- Association-list insert: the model of `HashMap::insert` (overwrites an
existing binding for the same key). -/
def alist_insert {κ α : Type} [BEq κ] (m : List (κ × α)) (k : κ) (v : α) : List (κ × α) :=
  if m.any (fun p => p.1 == k) then m.map (fun p => if p.1 == k then (k, v) else p)
  else m ++ [(k, v)]

/-- Modelled from the spec (§6, the `toml` crate is an external collaborator):
TOML values, restricted to the shapes the embedded fragments inspect via
`as_str`. -/
inductive TomlVal where
  | str (s : String)
  | int (n : Int)
  | boolean (b : Bool)
deriving DecidableEq, Repr

/-- `toml::Value::as_str`. -/
def TomlVal.as_str : TomlVal → Option String
  | TomlVal.str s => some s
  | _ => none

/-- Modelled from the spec (§4.4, `zencode.rs` is not under `src/`): the Sail
name encoding applied before symbol-table lookup.  For plain identifiers this
is the `z`-prefix; the exact encoding is irrelevant to every claim settled
here (the embedded symbol tables are keyed by already-encoded names). -/
def zencode_encode (s : String) : String := "z" ++ s

/-- The outcome of `parse_init`: an `(interned register, address)` pair, a
descriptive error string, or a Rust panic. -/
inductive InitOutcome where
  | ok (reg : Nat) (addr : Nat)
  | err (msg : String)
  | rustPanic (msg : String)
deriving DecidableEq, Repr

/-- `parse_init` (`litmus.rs` lines 220–238): resolve the register through the
rename map (falling back to the symbol table after name encoding), require the
value to be a string, and look it up among the symbolic addresses — panicking
when it is not a declared symbolic address.  `symtab` and `register_renames`
stand for `Symtab::get` and `ISAConfig::register_renames`. -/
def parse_init (reg : String) (value : TomlVal) (symbolic_addrs : List (String × Nat))
    (symtab : List (String × Nat)) (register_renames : List (String × Nat)) : InitOutcome :=
  let resolved :=
    match alist_lookup register_renames reg with
    | some r => some r
    | none => alist_lookup symtab (zencode_encode reg)
  match resolved with
  | none => InitOutcome.err ("No register " ++ reg ++ " in thread init")
  | some r =>
    match value.as_str with
    | none => InitOutcome.err "Init value must be a string"
    | some v =>
      match alist_lookup symbolic_addrs v with
      | some addr => InitOutcome.ok r addr
      | none => InitOutcome.rustPanic "Cannot handle init value in litmus"

/-- The `symbolic_addrs` computation of `Litmus::parse` (`litmus.rs` lines
353–366): enumerate the `symbolic` array, require each entry to be a string,
assign `base + i·stride` in wrapping `u64` arithmetic, and collect into a map
(later duplicates overwrite earlier ones, as with `HashMap` collect). -/
def assign_symbolic_addrs (symbolic : List TomlVal) (base stride : Nat) :
    Except String (List (String × Nat)) :=
  (symbolic.enum.mapM
      (fun (p : Nat × TomlVal) =>
        match p.2.as_str with
        | some sym_addr =>
          Except.ok ((sym_addr, (base + p.1 * stride % 2 ^ 64) % 2 ^ 64) : String × Nat)
        | none => (Except.error "Symbolic addresses must be strings" : Except String (String × Nat))))
    |>.map (fun (pairs : List (String × Nat)) =>
      pairs.foldl (fun m (p : String × Nat) => alist_insert m p.1 p.2) [])

/-- Modelled from the spec (§6, `sexp.rs` is not under `src/`): S-expressions
of the final-state assertion language. -/
inductive Sexp where
  | Atom (s : String)
  | I64 (n : Int)
  | List (xs : List Sexp)
deriving Repr

/-- Modelled from the spec: `Sexp::as_str`. -/
def Sexp.as_str : Sexp → Option String
  | Sexp.Atom s => some s
  | _ => none

/-- Modelled from the spec: `Sexp::as_u64` (an `i64` literal cast to `u64`). -/
def Sexp.as_u64 : Sexp → Option Nat
  | Sexp.I64 n => some (u64cast n)
  | _ => none

/-- Modelled from the spec: `Sexp::as_usize`. -/
def Sexp.as_usize : Sexp → Option Nat
  | Sexp.I64 n => some (u64cast n)
  | _ => none

/-- Modelled from the spec: `Sexp::is_fn(name, args)` holds for a list whose
head is the atom `name` applied to at least `args` arguments ("all operators
admit ≥1 operand unless noted"). -/
def Sexp.is_fn (s : Sexp) (name : String) (args : Nat) : Bool :=
  match s with
  | Sexp.List (Sexp.Atom f :: rest) => f == name && decide (args ≤ rest.length)
  | _ => false

/-- `Loc` of the litmus front end (`litmus.rs` lines 265–268; named
`LitmusLoc` to avoid the IR `Loc`): a register of a thread, or the last write
to a symbolic address. -/
inductive LitmusLoc where
  | Register (reg : Nat) (thread_id : Nat)
  | LastWriteTo (name : String)
deriving DecidableEq, Repr

/-- `Loc::from_sexp` (`litmus.rs` lines 270–290): `(register name thread_id)`
with the register resolved through the rename map, falling back to the symbol
table after name encoding. -/
def litmus_loc_from_sexp (sexp : Sexp) (symtab register_renames : List (String × Nat)) :
    Option LitmusLoc :=
  match sexp with
  | Sexp.List sexps =>
    if sexp.is_fn "register" 2 && sexps.length == 3 then
      match sexps with
      | [_, s1, s2] => do
        let reg_name ← s1.as_str
        let reg ←
          match alist_lookup register_renames reg_name with
          | some r => some r
          | none => alist_lookup symtab (zencode_encode reg_name)
        let thread_id ← s2.as_usize
        some (LitmusLoc.Register reg thread_id)
      | _ => none
    else none
  | _ => none

/-- `Prop` of the litmus front end (`litmus.rs` lines 292–299; named `LProp`
since `Prop` is a Lean keyword): the final-assertion property tree. -/
inductive LProp where
  | EqLoc (loc : LitmusLoc) (bv : Sbits)
  | And (ps : List LProp)
  | Or (ps : List LProp)
  | Not (p : LProp)
  | Implies (p q : LProp)
deriving Repr

/-- `Prop::from_sexp` (`litmus.rs` lines 301–324): translate a final-assertion
S-expression along the `=`/`and`/`or`/`=>`/`not` schema, `none` on any other
shape. -/
def prop_from_sexp (symtab register_renames : List (String × Nat)) (sexp : Sexp) :
    Option LProp :=
  match sexp with
  | Sexp.List sexps =>
    if (Sexp.List sexps).is_fn "=" 2 && sexps.length == 3 then
      match sexps with
      | [_, l, v] => do
        let loc ← litmus_loc_from_sexp l symtab register_renames
        let u ← v.as_u64
        some (LProp.EqLoc loc ⟨64, u⟩)
      | _ => none
    else if (Sexp.List sexps).is_fn "and" 1 then
      ((sexps.drop 1).attach.mapM (fun s => prop_from_sexp symtab register_renames s.1)).map
        LProp.And
    else if (Sexp.List sexps).is_fn "or" 1 then
      ((sexps.drop 1).attach.mapM (fun s => prop_from_sexp symtab register_renames s.1)).map
        LProp.Or
    else if (Sexp.List sexps).is_fn "=>" 2 && sexps.length == 3 then
      match sexps with
      | [_, p, q] => do
        let hp ← prop_from_sexp symtab register_renames p
        let hq ← prop_from_sexp symtab register_renames q
        some (LProp.Implies hp hq)
      | _ => none
    else if (Sexp.List sexps).is_fn "not" 1 && sexps.length == 2 then
      match sexps with
      | [_, p] => (prop_from_sexp symtab register_renames p).map LProp.Not
      | _ => none
    else none
  | _ => none
termination_by sizeOf sexp
decreasing_by
  all_goals simp_wf
  all_goals first
    | (have h := List.sizeOf_lt_of_mem (List.mem_of_mem_drop s.2); omega)
    | omega

/-- The location schema exactly as the spec states it, with direct patterns:
`loc = (register name thread_id)`, the register resolved "through the config's
rename map (fallback: symbol-table lookup after name encoding)". -/
def spec_loc_schema (symtab register_renames : List (String × Nat)) :
    Sexp → Option LitmusLoc
  | Sexp.List [Sexp.Atom "register", s1, s2] => do
    let reg_name ← s1.as_str
    let reg ←
      match alist_lookup register_renames reg_name with
      | some r => some r
      | none => alist_lookup symtab (zencode_encode reg_name)
    let thread_id ← s2.as_usize
    some (LitmusLoc.Register reg thread_id)
  | _ => none

/-- The final-assertion schema exactly as the spec (§4.4) states it, written
with direct patterns as a second definition to compare against the embedded
`Prop::from_sexp`: `(= loc value)` with a literal value becomes `EqLoc`;
`(and p…)` and `(or p…)` with at least one operand become `And`/`Or`;
`(not p)` with exactly one argument becomes `Not`; `(=> p q)` with exactly two
arguments becomes `Implies`; any other shape is `none`. -/
def spec_assertion_schema (symtab register_renames : List (String × Nat)) :
    Sexp → Option LProp
  | Sexp.List [Sexp.Atom "=", l, v] => do
    let loc ← spec_loc_schema symtab register_renames l
    let u ← v.as_u64
    some (LProp.EqLoc loc ⟨64, u⟩)
  | Sexp.List (Sexp.Atom "and" :: p :: ps) =>
    ((p :: ps).attach.mapM
        (fun s => spec_assertion_schema symtab register_renames s.1)).map LProp.And
  | Sexp.List (Sexp.Atom "or" :: p :: ps) =>
    ((p :: ps).attach.mapM
        (fun s => spec_assertion_schema symtab register_renames s.1)).map LProp.Or
  | Sexp.List [Sexp.Atom "=>", p, q] => do
    let hp ← spec_assertion_schema symtab register_renames p
    let hq ← spec_assertion_schema symtab register_renames q
    some (LProp.Implies hp hq)
  | Sexp.List [Sexp.Atom "not", p] =>
    (spec_assertion_schema symtab register_renames p).map LProp.Not
  | _ => none
termination_by s => sizeOf s
decreasing_by
  all_goals simp_wf
  all_goals first
    | (have h := List.sizeOf_lt_of_mem s.2; simp at h; omega)
    | omega

/-- The final-assertion step of `Litmus::parse` (`litmus.rs` lines 392–398),
after the S-expression has been parsed: translate it with `Prop::from_sexp`,
failing with `"Cannot parse final assertion"` when the translation returns
nothing. -/
def parse_final_assertion (symtab register_renames : List (String × Nat)) (s : Sexp) :
    Except String LProp :=
  match prop_from_sexp symtab register_renames s with
  | some p => Except.ok p
  | none => Except.error "Cannot parse final assertion"

/-- An SMT model value: a bitvector (width and unsigned value) or a boolean. -/
inductive SmtVal where
  | bv (width value : Nat)
  | bool (b : Bool)
deriving DecidableEq, Repr

/-- The unsigned value of a little-endian boolean list (bit 0 first). -/
def bits_val : List Bool → Nat
  | [] => 0
  | b :: rest => (if b then 1 else 0) + 2 * bits_val rest

/-- Two model values of the same sort. -/
def same_sort : SmtVal → SmtVal → Bool
  | SmtVal.bv w _, SmtVal.bv w' _ => w == w'
  | SmtVal.bool _, SmtVal.bool _ => true
  | _, _ => false

/-- Evaluation of SMT expressions under a model `M` assigning each symbol a
sorted value: standard QF_BV semantics, `none` on ill-sorted terms (and on
`Enum`, which lies outside the bitvector fragment the embedded functions
emit). -/
def eval_exp (M : Nat → SmtVal) : Exp → Option SmtVal
  | Exp.Var v => some (M v)
  | Exp.Bits l => some (SmtVal.bv l.length (bits_val l))
  | Exp.Bits64 b len => some (SmtVal.bv len (b % 2 ^ len))
  | Exp.Bool b => some (SmtVal.bool b)
  | Exp.Enum _ => none
  | Exp.Eq a b =>
    match eval_exp M a, eval_exp M b with
    | some x, some y => if same_sort x y then some (SmtVal.bool (decide (x = y))) else none
    | _, _ => none
  | Exp.Neq a b =>
    match eval_exp M a, eval_exp M b with
    | some x, some y => if same_sort x y then some (SmtVal.bool (decide (x ≠ y))) else none
    | _, _ => none
  | Exp.And a b =>
    match eval_exp M a, eval_exp M b with
    | some (SmtVal.bool x), some (SmtVal.bool y) => some (SmtVal.bool (x && y))
    | _, _ => none
  | Exp.Or a b =>
    match eval_exp M a, eval_exp M b with
    | some (SmtVal.bool x), some (SmtVal.bool y) => some (SmtVal.bool (x || y))
    | _, _ => none
  | Exp.Not a =>
    match eval_exp M a with
    | some (SmtVal.bool x) => some (SmtVal.bool (!x))
    | _ => none
  | Exp.Ite c t e =>
    match eval_exp M c, eval_exp M t, eval_exp M e with
    | some (SmtVal.bool cb), some tv, some ev =>
      if same_sort tv ev then some (if cb then tv else ev) else none
    | _, _, _ => none
  | Exp.Bvnot a =>
    match eval_exp M a with
    | some (SmtVal.bv w x) => some (SmtVal.bv w (2 ^ w - 1 - x))
    | _ => none
  | Exp.Bvand a b =>
    match eval_exp M a, eval_exp M b with
    | some (SmtVal.bv w x), some (SmtVal.bv w' y) =>
      if w = w' then some (SmtVal.bv w (x &&& y)) else none
    | _, _ => none
  | Exp.Bvor a b =>
    match eval_exp M a, eval_exp M b with
    | some (SmtVal.bv w x), some (SmtVal.bv w' y) =>
      if w = w' then some (SmtVal.bv w (x ||| y)) else none
    | _, _ => none
  | Exp.Bvadd a b =>
    match eval_exp M a, eval_exp M b with
    | some (SmtVal.bv w x), some (SmtVal.bv w' y) =>
      if w = w' then some (SmtVal.bv w ((x + y) % 2 ^ w)) else none
    | _, _ => none
  | Exp.Bvshl a b =>
    match eval_exp M a, eval_exp M b with
    | some (SmtVal.bv w x), some (SmtVal.bv w' y) =>
      if w = w' then some (SmtVal.bv w (x <<< y % 2 ^ w)) else none
    | _, _ => none
  | Exp.Bvlshr a b =>
    match eval_exp M a, eval_exp M b with
    | some (SmtVal.bv w x), some (SmtVal.bv w' y) =>
      if w = w' then some (SmtVal.bv w (x >>> y)) else none
    | _, _ => none
  | Exp.Extract hi lo a =>
    match eval_exp M a with
    | some (SmtVal.bv w x) =>
      if lo ≤ hi ∧ hi < w then some (SmtVal.bv (hi - lo + 1) (x >>> lo % 2 ^ (hi - lo + 1)))
      else none
    | _ => none
  | Exp.ZeroExtend n a =>
    match eval_exp M a with
    | some (SmtVal.bv w x) => some (SmtVal.bv (w + n) x)
    | _ => none
  | Exp.SignExtend n a =>
    match eval_exp M a with
    | some (SmtVal.bv w x) =>
      some (SmtVal.bv (w + n) (if x < 2 ^ (w - 1) ∨ w = 0 then x else x + (2 ^ n - 1) * 2 ^ w))
    | _ => none

/-- A model is well-formed when every bitvector value fits its width. -/
def wf_model (M : Nat → SmtVal) : Prop :=
  ∀ v, match M v with
    | SmtVal.bv w x => x < 2 ^ w
    | SmtVal.bool _ => True

/-- The model assigns to each symbol in the solver's width table a bitvector
of the recorded width. -/
def model_matches_lengths (M : Nat → SmtVal) (lengths : List (Nat × Nat)) : Prop :=
  ∀ v w, alist_lookup lengths v = some w → ∃ x, M v = SmtVal.bv w x

/-- The model satisfies every definition and assertion in a solver trace. -/
def satisfies_defs (M : Nat → SmtVal) (ds : List SmtDef) : Prop :=
  ∀ d ∈ ds, match d with
    | SmtDef.DefineConst v e => eval_exp M e = some (M v)
    | SmtDef.Assert e => eval_exp M e = some (SmtVal.bool true)

/-- The denotation of a runtime value under a model (defined exactly on the
shapes that denote SMT terms). -/
def val_interp (M : Nat → SmtVal) : Val → Option SmtVal
  | Val.Bits bv => some (SmtVal.bv bv.length bv.bits)
  | Val.Symbolic v => some (M v)
  | Val.Bool b => some (SmtVal.bool b)
  | _ => none

/-- C1: evaluating `op_slice` at the claim's two inputs.  The concrete slice
`op_slice(Bits(0xABCD,16), I64(4), 8)` returns `Ok(Bits(0xBC,8))` as claimed,
and the all-zero short-circuit `op_slice(Bits(0,64), Symbolic(v), 4)` adds no
definition to the solver — but it returns `Ok(Bits(0,64))`, the zero
bitvector of the BASE width `bits_length`, not `Bits(0,4)` of the requested
slice length (the `_ if bits.is_zero()` arm returns `B::zeros(bits_length)`). -/
theorem C1_op_slice_zero_shortcircuit (v : Nat) (solver : Solver) :
    op_slice (Val.Bits ⟨16, 0xABCD⟩) (Val.I64 4) 8 solver =
      (PrimOut.ok (Val.Bits ⟨8, 0xBC⟩), solver) ∧
    op_slice (Val.Bits ⟨64, 0⟩) (Val.Symbolic v) 4 solver =
      (PrimOut.ok (Val.Bits ⟨64, 0⟩), solver) ∧
    Sbits.mk 64 0 ≠ Sbits.mk 4 0 :=
  ⟨rfl, rfl, by decide⟩

/-- C3 counterexample: at the concrete non-empty lists `[Unit]` and
`[Unit, Unit]` (different lengths), `op_eq` returns `Ok(Bool(false))` and in
particular not a `Type` error, refuting "returns a Type error for any two
non-empty lists". -/
theorem C3_op_eq_lists_counterexample :
    op_eq (Val.List [Val.Unit]) (Val.List [Val.Unit, Val.Unit]) ⟨0, [], []⟩ =
      (PrimOut.ok (Val.Bool false), ⟨0, [], []⟩) ∧
    (Val.Unit :: ([] : List Val)) ≠ [] ∧
    ∀ e s, op_eq (Val.List [Val.Unit]) (Val.List [Val.Unit, Val.Unit]) ⟨0, [], []⟩ ≠
      (PrimOut.err e, s) := by
  refine ⟨rfl, by simp, ?_⟩
  intro e s h
  have h' : (PrimOut.ok (Val.Bool false), (⟨0, [], []⟩ : Solver)) = (PrimOut.err e, s) := h
  exact PrimOut.noConfusion (congrArg Prod.fst h')

/-- C3 (amended): `op_eq` on two `List` values returns `Ok(Bool(true))` when
both are empty, `Ok(Bool(false))` when the lengths differ (even for two
non-empty lists), and a `Type` error exactly for two non-empty lists of EQUAL
length; it never performs element-wise comparison. -/
theorem C3_op_eq_lists (xs ys : List Val) (solver : Solver) :
    (xs = [] → ys = [] →
      op_eq (Val.List xs) (Val.List ys) solver = (PrimOut.ok (Val.Bool true), solver)) ∧
    (xs.length ≠ ys.length →
      op_eq (Val.List xs) (Val.List ys) solver = (PrimOut.ok (Val.Bool false), solver)) ∧
    (xs.length = ys.length → xs ≠ [] →
      op_eq (Val.List xs) (Val.List ys) solver =
        (PrimOut.err (ExecError.Type "op_eq"), solver)) := by
  refine ⟨?_, ?_, ?_⟩
  · rintro rfl rfl
    rfl
  · intro h
    simp [op_eq, h]
  · intro hlen hne
    have hxe : xs.isEmpty = false := by
      cases xs with
      | nil => exact absurd rfl hne
      | cons a l => rfl
    simp [op_eq, hlen, hxe]

/-- C3 witness: the amended theorem applied at `[] = []` (true), at
`[Unit] ≠ [Unit, Unit]` in length (false), and at the equal-length non-empty
pair `[Unit]`, `[Bool true]` (Type error). -/
theorem C3_op_eq_lists_witness :
    op_eq (Val.List []) (Val.List []) ⟨0, [], []⟩ =
      (PrimOut.ok (Val.Bool true), ⟨0, [], []⟩) ∧
    op_eq (Val.List [Val.Unit]) (Val.List [Val.Unit, Val.Unit]) ⟨0, [], []⟩ =
      (PrimOut.ok (Val.Bool false), ⟨0, [], []⟩) ∧
    op_eq (Val.List [Val.Unit]) (Val.List [Val.Bool true]) ⟨0, [], []⟩ =
      (PrimOut.err (ExecError.Type "op_eq"), ⟨0, [], []⟩) :=
  ⟨(C3_op_eq_lists [] [] ⟨0, [], []⟩).1 rfl rfl,
   (C3_op_eq_lists [Val.Unit] [Val.Unit, Val.Unit] ⟨0, [], []⟩).2.1 (by simp),
   (C3_op_eq_lists [Val.Unit] [Val.Bool true] ⟨0, [], []⟩).2.2 (by simp) (by simp)⟩

/-- C4: at the failing input — a thread init entry `X0 = "z"` whose value
names an address that is not among the declared symbolic addresses
(`symbolic = ["x"]`) — `parse_init` panics with
`"Cannot handle init value in litmus"` instead of returning an `Err`, so
`Litmus::parse` can panic on user-controlled input. -/
theorem C4_parse_init_panics_on_undeclared_address :
    parse_init "X0" (TomlVal.str "z") [("x", 1048576)] [] [("X0", 3)] =
      InitOutcome.rustPanic "Cannot handle init value in litmus" := rfl

/-- C7: for every symbolic variable `v`, `add_int(Symbolic(v), I128(0))`
returns `Ok(Symbolic(v))` with the same variable and returns the solver
completely unchanged — no fresh symbol is allocated and no definition or
assertion is added — and symmetrically for `add_int(I128(0), Symbolic(v))`. -/
theorem C7_add_int_zero_identity (v : Nat) (solver : Solver) :
    add_int (Val.Symbolic v) (Val.I128 0) solver = (PrimOut.ok (Val.Symbolic v), solver) ∧
    add_int (Val.I128 0) (Val.Symbolic v) solver = (PrimOut.ok (Val.Symbolic v), solver) :=
  ⟨rfl, rfl⟩

/-- C10: the cons/head/tail round trip, and the representation fact that the
head of a Sail list is the LAST element of the underlying vector: `cons`
pushes at the end, `op_head`/`op_tail` pop from the end, and `op_head` of an
empty list is a `Type` error. -/
theorem C10_list_cons_head_tail (x : Val) (xs : List Val) (solver : Solver) :
    cons x (Val.List xs) solver = (PrimOut.ok (Val.List (xs ++ [x])), solver) ∧
    op_head (Val.List (xs ++ [x])) solver = (PrimOut.ok x, solver) ∧
    op_tail (Val.List (xs ++ [x])) solver = (PrimOut.ok (Val.List xs), solver) ∧
    op_head (Val.List []) solver =
      (PrimOut.err (ExecError.Type "op_head (list empty)"), solver) := by
  refine ⟨rfl, ?_, ?_, rfl⟩
  · simp [op_head, List.getLast?_concat]
  · simp [op_tail, List.dropLast_concat]

theorem mem_foldl_primop_step (l : List Def) (S : Finset Nat) (f : Nat)
    (h : f ∈ S ∨ has_val l f = true) (hfn : has_fn l f = false) :
    f ∈ l.foldl
      (fun s d =>
        match d with
        | Def.Val g _ _ => insert g s
        | Def.Fn g _ _ => s.erase g
        | _ => s)
      S := by
  induction l generalizing S with
  | nil => simpa [has_val] using h
  | cons d l ih =>
    rw [List.foldl_cons]
    cases d with
    | Val g args ret =>
      apply ih
      · rcases h with hS | hv
        · exact Or.inl (Finset.mem_insert_of_mem hS)
        · simp [has_val, List.any_cons] at hv
          rcases hv with rfl | hv
          · exact Or.inl (Finset.mem_insert_self _ _)
          · exact Or.inr (by simpa [has_val] using hv)
      · simpa [has_fn, List.any_cons] using hfn
    | Fn g args body =>
      simp [has_fn, List.any_cons] at hfn
      apply ih
      · rcases h with hS | hv
        · exact Or.inl (Finset.mem_erase.mpr ⟨fun hgf => hfn.1 hgf.symm, hS⟩)
        · simp [has_val, List.any_cons] at hv
          exact Or.inr (by simpa [has_val] using hv)
      · simpa [has_fn] using hfn.2
    | Register r t =>
      apply ih
      · rcases h with hS | hv
        · exact Or.inl hS
        · simp [has_val, List.any_cons] at hv
          exact Or.inr (by simpa [has_val] using hv)
      · simpa [has_fn, List.any_cons] using hfn
    | Let bs setup =>
      apply ih
      · rcases h with hS | hv
        · exact Or.inl hS
        · simp [has_val, List.any_cons] at hv
          exact Or.inr (by simpa [has_val] using hv)
      · simpa [has_fn, List.any_cons] using hfn
    | Enum e cs =>
      apply ih
      · rcases h with hS | hv
        · exact Or.inl hS
        · simp [has_val, List.any_cons] at hv
          exact Or.inr (by simpa [has_val] using hv)
      · simpa [has_fn, List.any_cons] using hfn
    | Struct s fs =>
      apply ih
      · rcases h with hS | hv
        · exact Or.inl hS
        · simp [has_val, List.any_cons] at hv
          exact Or.inr (by simpa [has_val] using hv)
      · simpa [has_fn, List.any_cons] using hfn
    | Union u cs =>
      apply ih
      · rcases h with hS | hv
        · exact Or.inl hS
        · simp [has_val, List.any_cons] at hv
          exact Or.inr (by simpa [has_val] using hv)
      · simpa [has_fn, List.any_cons] using hfn

theorem sig_only_mem_primop_scan (defs : List Def) (f : Nat)
    (h : sig_only defs f = true) : f ∈ primop_scan defs := by
  simp [sig_only, Bool.and_eq_true, Bool.not_eq_true'] at h
  exact mem_foldl_primop_step defs ∅ f (Or.inr h.1) h.2

theorem call_target_rewrite (S : Finset Nat) (i : Instr) (g : Nat)
    (h : call_target (rewrite_call S i) = some g) : g ∉ S := by
  cases i with
  | Call loc ext f args =>
    by_cases hf : f ∈ S
    · simp [rewrite_call, hf, call_target] at h
    · simp [rewrite_call, hf, call_target] at h
      subst h
      exact hf
  | Decl v ty => simp [rewrite_call, call_target] at h
  | Init v ty e => simp [rewrite_call, call_target] at h
  | Jump e t => simp [rewrite_call, call_target] at h
  | Goto t => simp [rewrite_call, call_target] at h
  | Copy loc e => simp [rewrite_call, call_target] at h
  | Primop loc f args => simp [rewrite_call, call_target] at h
  | Failure => simp [rewrite_call, call_target] at h
  | Arbitrary => simp [rewrite_call, call_target] at h
  | End => simp [rewrite_call, call_target] at h

theorem rewrite_call_idem (S : Finset Nat) (i : Instr) :
    rewrite_call S (rewrite_call S i) = rewrite_call S i := by
  cases i with
  | Call loc ext f args => by_cases hf : f ∈ S <;> simp [rewrite_call, hf]
  | Decl v ty => rfl
  | Init v ty e => rfl
  | Jump e t => rfl
  | Goto t => rfl
  | Copy loc e => rfl
  | Primop loc f args => rfl
  | Failure => rfl
  | Arbitrary => rfl
  | End => rfl

theorem fn_bodies_no_sig_only_call (defs : List Def) (f : Nat) (args : List Nat)
    (body : List Instr) (hmem : Def.Fn f args body ∈ (insert_primops defs).2) :
    ∀ i ∈ body, ∀ g, call_target i = some g → sig_only defs g = false := by
  intro i hi g hg
  simp only [insert_primops, List.mem_map] at hmem
  obtain ⟨d, hd, hmap⟩ := hmem
  cases d with
  | Fn f' args' body' =>
    simp only [Def.Fn.injEq] at hmap
    obtain ⟨rfl, rfl, hb⟩ := hmap
    obtain ⟨i0, hi0, rfl⟩ := List.mem_map.mp (hb ▸ hi)
    have hnot := call_target_rewrite _ i0 g hg
    cases hs : sig_only defs g with
    | false => rfl
    | true => exact absurd (sig_only_mem_primop_scan defs g hs) hnot
  | Register r t => exact absurd hmap (by simp)
  | Let bs setup => exact absurd hmap (by simp)
  | Enum e cs => exact absurd hmap (by simp)
  | Struct s fs => exact absurd hmap (by simp)
  | Union u cs => exact absurd hmap (by simp)
  | Val v a r => exact absurd hmap (by simp)

/-- C2 (amended): after `insert_primops` on definitions with no `Primop`
instruction, every `Call` in an `Fn` body whose target is signature-only
(`Val` without `Fn`) is rewritten to a `Primop` with the same location, name
and arguments, and no `Call` targeting a signature-only name remains in any
`Fn` body.  However — the amendment — `Call`s inside `Let` setup blocks are
NOT rewritten: the second pass of `insert_primops` only touches `Fn`
definitions, so such a `Call` can remain in a `Let` definition. -/
theorem C2_insert_primops_rewrites_fn_calls (defs : List Def) (h : no_primop_instr defs) :
    (∀ f args body, Def.Fn f args body ∈ defs →
      Def.Fn f args (body.map (rewrite_call (primop_scan defs))) ∈ (insert_primops defs).2) ∧
    (∀ loc ext g args, sig_only defs g = true →
      rewrite_call (primop_scan defs) (Instr.Call loc ext g args) = Instr.Primop loc g args) ∧
    (∀ f args body, Def.Fn f args body ∈ (insert_primops defs).2 →
      ∀ i ∈ body, ∀ g, call_target i = some g → sig_only defs g = false) ∧
    (∀ bindings setup, Def.Let bindings setup ∈ defs →
      Def.Let bindings setup ∈ (insert_primops defs).2) := by
  refine ⟨?_, ?_, fun f args body hm => fn_bodies_no_sig_only_call defs f args body hm, ?_⟩
  · intro f args body hmem
    simp only [insert_primops, List.mem_map]
    exact ⟨Def.Fn f args body, hmem, rfl⟩
  · intro loc ext g args hsig
    simp [rewrite_call, sig_only_mem_primop_scan defs g hsig]
  · intro bs setup hmem
    simp only [insert_primops, List.mem_map]
    exact ⟨Def.Let bs setup, hmem, rfl⟩

/-- C2 counterexample: for the definitions `[Val 7, Let [] [Call _ 7 _]]` —
which contain no `Primop` instruction, and in which name `7` is
signature-only — the `Call` targeting `7` inside the `Let` setup block
survives `insert_primops`, refuting "no Call targeting such a signature-only
name remains in any instruction of any definition". -/
theorem C2_insert_primops_counterexample :
    ¬ (no_primop_instr [Def.Val 7 [] Ty.Unit,
          Def.Let [] [Instr.Call (AstLoc.Id 0) false 7 []]] →
        ∀ d ∈ (insert_primops [Def.Val 7 [] Ty.Unit,
            Def.Let [] [Instr.Call (AstLoc.Id 0) false 7 []]]).2,
          ∀ i ∈ instrs_of_def d, ∀ g, call_target i = some g →
            sig_only [Def.Val 7 [] Ty.Unit,
              Def.Let [] [Instr.Call (AstLoc.Id 0) false 7 []]] g = false) := by
  intro h
  have hnp : no_primop_instr [Def.Val 7 [] Ty.Unit,
      Def.Let [] [Instr.Call (AstLoc.Id 0) false 7 []]] := by
    intro d hd i hi
    simp only [List.mem_cons, List.not_mem_nil, or_false] at hd
    rcases hd with rfl | rfl
    · simp [instrs_of_def] at hi
    · simp [instrs_of_def] at hi
      subst hi
      rfl
  have h2 := h hnp (Def.Let [] [Instr.Call (AstLoc.Id 0) false 7 []])
    (by simp [insert_primops]) (Instr.Call (AstLoc.Id 0) false 7 [])
    (by simp [instrs_of_def]) 7 rfl
  exact Bool.noConfusion ((rfl :
    sig_only [Def.Val 7 [] Ty.Unit,
      Def.Let [] [Instr.Call (AstLoc.Id 0) false 7 []]] 7 = true).symm.trans h2)

/-- C2 witness: the theorem applied to
`[Val 7, Val 8, Fn 8 [Call _ 7 _]]` (no `Primop` instruction; `7` is
signature-only), showing the `Call` to `7` is rewritten to `Primop`. -/
theorem C2_insert_primops_rewrites_fn_calls_witness :
    rewrite_call
        (primop_scan [Def.Val 7 [] Ty.Unit, Def.Val 8 [] Ty.Unit,
          Def.Fn 8 [] [Instr.Call (AstLoc.Id 0) false 7 []]])
        (Instr.Call (AstLoc.Id 0) false 7 []) =
      Instr.Primop (AstLoc.Id 0) 7 [] :=
  (C2_insert_primops_rewrites_fn_calls
      [Def.Val 7 [] Ty.Unit, Def.Val 8 [] Ty.Unit,
        Def.Fn 8 [] [Instr.Call (AstLoc.Id 0) false 7 []]]
      (by intro d hd i hi
          simp only [List.mem_cons, List.not_mem_nil, or_false] at hd
          rcases hd with rfl | rfl | rfl
          · simp [instrs_of_def] at hi
          · simp [instrs_of_def] at hi
          · simp [instrs_of_def] at hi
            subst hi
            rfl)).2.1
    (AstLoc.Id 0) false 7 [] (by rfl)

theorem foldl_primop_step_map (P : Finset Nat) (l : List Def) (S : Finset Nat) :
    (l.map
        (fun d =>
          match d with
          | Def.Fn f args body => Def.Fn f args (body.map (rewrite_call P))
          | d => d)).foldl
      (fun s d =>
        match d with
        | Def.Val g _ _ => insert g s
        | Def.Fn g _ _ => s.erase g
        | _ => s)
      S =
    l.foldl
      (fun s d =>
        match d with
        | Def.Val g _ _ => insert g s
        | Def.Fn g _ _ => s.erase g
        | _ => s)
      S := by
  induction l generalizing S with
  | nil => rfl
  | cons d l ih => cases d <;> simp [ih]

theorem primop_scan_insert_primops (defs : List Def) :
    primop_scan (insert_primops defs).2 = primop_scan defs := by
  simp only [insert_primops, primop_scan]
  exact foldl_primop_step_map (primop_scan defs) defs ∅

/-- C8 (amended): `insert_primops` is idempotent — a second run returns the
same primop set and leaves every definition unchanged — and after one run no
`Call` remains in any `Fn` BODY whose target is signature-only (`Val` without
`Fn`).  The amendment: the guarantee is restricted to `Fn` bodies, because
`Call`s inside `Let` setup blocks are never rewritten. -/
theorem C8_insert_primops_idempotent (defs : List Def) :
    insert_primops ((insert_primops defs).2) = insert_primops defs ∧
    (∀ f args body, Def.Fn f args body ∈ (insert_primops defs).2 →
      ∀ i ∈ body, ∀ g, call_target i = some g → sig_only defs g = false) := by
  refine ⟨?_, fun f args body hm => fn_bodies_no_sig_only_call defs f args body hm⟩
  have hscan := primop_scan_insert_primops defs
  apply Prod.ext
  · simpa [insert_primops] using hscan
  · show (insert_primops ((insert_primops defs).2)).2 = (insert_primops defs).2
    have hsnd : ∀ l : List Def, (insert_primops l).2 =
        l.map
          (fun d =>
            match d with
            | Def.Fn f args body => Def.Fn f args (body.map (rewrite_call (primop_scan l)))
            | d => d) := fun l => rfl
    have hscan2 := hscan
    rw [hsnd defs] at hscan2
    rw [hsnd ((insert_primops defs).2), hsnd defs, hscan2, List.map_map]
    apply List.map_congr_left
    intro d _
    cases d with
    | Fn f args body =>
      simp only [Function.comp_apply, List.map_map]
      exact congrArg _ (List.map_congr_left fun i _ => rewrite_call_idem _ i)
    | Register r t => rfl
    | Let bs setup => rfl
    | Enum e cs => rfl
    | Struct s fs => rfl
    | Union u cs => rfl
    | Val v a r => rfl

/-- C8 counterexample: for `[Val 9, Let [] [Call _ 9 _]]` the second half of
the claim fails — after one run of `insert_primops`, the `Call` targeting the
signature-only name `9` remains (inside the `Let` setup block). -/
theorem C8_insert_primops_counterexample :
    ¬ (insert_primops ((insert_primops [Def.Val 9 [] Ty.Bool,
            Def.Let [] [Instr.Call (AstLoc.Id 1) true 9 []]]).2) =
          insert_primops [Def.Val 9 [] Ty.Bool,
            Def.Let [] [Instr.Call (AstLoc.Id 1) true 9 []]] ∧
        ∀ d ∈ (insert_primops [Def.Val 9 [] Ty.Bool,
            Def.Let [] [Instr.Call (AstLoc.Id 1) true 9 []]]).2,
          ∀ i ∈ instrs_of_def d, ∀ g, call_target i = some g →
            sig_only [Def.Val 9 [] Ty.Bool,
              Def.Let [] [Instr.Call (AstLoc.Id 1) true 9 []]] g = false) := by
  rintro ⟨-, h⟩
  have h2 := h (Def.Let [] [Instr.Call (AstLoc.Id 1) true 9 []])
    (by simp [insert_primops]) (Instr.Call (AstLoc.Id 1) true 9 [])
    (by simp [instrs_of_def]) 9 rfl
  exact Bool.noConfusion ((rfl :
    sig_only [Def.Val 9 [] Ty.Bool,
      Def.Let [] [Instr.Call (AstLoc.Id 1) true 9 []]] 9 = true).symm.trans h2)

theorem mapM_enumFrom_str (names : List String) (n base stride : Nat) :
    (List.enumFrom n (names.map TomlVal.str)).mapM
        (fun (p : Nat × TomlVal) =>
          match p.2.as_str with
          | some sym_addr =>
            Except.ok ((sym_addr, (base + p.1 * stride % 2 ^ 64) % 2 ^ 64) : String × Nat)
          | none =>
            (Except.error "Symbolic addresses must be strings" :
              Except String (String × Nat))) =
      Except.ok ((List.enumFrom n names).map
        (fun p => (p.2, (base + p.1 * stride % 2 ^ 64) % 2 ^ 64))) := by
  induction names generalizing n with
  | nil => rfl
  | cons x l ih =>
    simp only [List.map_cons, List.enumFrom, List.mapM_cons, ih]
    rfl

theorem alist_insert_fresh {κ α : Type} [BEq κ] [LawfulBEq κ]
    (m : List (κ × α)) (k : κ) (v : α) (h : ∀ p ∈ m, p.1 ≠ k) :
    alist_insert m k v = m ++ [(k, v)] := by
  unfold alist_insert
  rw [if_neg]
  simp only [List.any_eq_true, beq_iff_eq, not_exists, not_and]
  intro p hp
  exact h p hp

theorem foldl_alist_insert_fresh {κ α : Type} [BEq κ] [LawfulBEq κ]
    (pairs : List (κ × α)) (acc : List (κ × α))
    (h : ((acc ++ pairs).map Prod.fst).Nodup) :
    pairs.foldl (fun m p => alist_insert m p.1 p.2) acc = acc ++ pairs := by
  induction pairs generalizing acc with
  | nil => simp
  | cons p l ih =>
    rw [List.foldl_cons]
    have hdis : (acc.map Prod.fst).Disjoint ((p :: l).map Prod.fst) := by
      rw [List.map_append, List.nodup_append] at h
      exact h.2.2
    have hfresh : ∀ q ∈ acc, q.1 ≠ p.1 := by
      intro q hq he
      exact hdis (List.mem_map_of_mem Prod.fst hq) (he ▸ (by simp : p.1 ∈ (p :: l).map Prod.fst))
    rw [alist_insert_fresh acc p.1 p.2 hfresh]
    have hp : acc ++ [(p.1, p.2)] = acc ++ [p] := by simp
    rw [hp]
    have h' : (((acc ++ [p]) ++ l).map Prod.fst).Nodup := by
      rw [← List.append_cons]
      exact h
    rw [ih (acc ++ [p]) h', List.append_assoc]
    rfl

theorem lookup_enum_pairs (names : List String) (base stride : Nat)
    (hnd : names.Nodup) :
    ∀ (n i : Nat) (h : i < names.length),
      alist_lookup
          ((List.enumFrom n names).map
            (fun p => (p.2, (base + p.1 * stride % 2 ^ 64) % 2 ^ 64)))
          (names.get ⟨i, h⟩) =
        some ((base + (n + i) * stride % 2 ^ 64) % 2 ^ 64) := by
  induction names with
  | nil => intro n i h; exact absurd h (by simp)
  | cons x l ih =>
    intro n i h
    cases i with
    | zero =>
      simp [alist_lookup, List.enumFrom, List.find?]
    | succ j =>
      have hxl : x ∉ l := (List.nodup_cons.mp hnd).1
      have hj : j < l.length := by simpa using h
      have hget : (x :: l).get ⟨j + 1, h⟩ = l.get ⟨j, hj⟩ := rfl
      have hne : (x == l.get ⟨j, hj⟩) = false := by
        simp only [beq_eq_false_iff_ne, ne_eq]
        intro he
        exact hxl (he ▸ l.get_mem j hj)
      rw [hget]
      simp only [List.enumFrom, List.map_cons, alist_lookup, List.find?]
      rw [show ((x, (base + n * stride % 2 ^ 64) % 2 ^ 64).1 == l.get ⟨j, hj⟩) = false from hne]
      have := ih (List.Nodup.of_cons hnd) (n + 1) j hj
      simp only [alist_lookup] at this
      rw [this]
      have harith : n + 1 + j = n + (j + 1) := by omega
      rw [harith]

/-- C5 (amended): for a litmus `symbolic` array of PAIRWISE-DISTINCT name
strings, parsing assigns addresses in declaration order:
`symbolic_addrs[names[i]] = base + i·stride` (in wrapping `u64` arithmetic).
The amendment adds the distinctness hypothesis: with a duplicated name the
`HashMap` keeps only the LAST occurrence's address. -/
theorem C5_symbolic_addrs_in_declaration_order (names : List String) (base stride : Nat)
    (hnd : names.Nodup) :
    ∃ m, assign_symbolic_addrs (names.map TomlVal.str) base stride = Except.ok m ∧
      ∀ i (h : i < names.length),
        alist_lookup m (names.get ⟨i, h⟩) =
          some ((base + i * stride % 2 ^ 64) % 2 ^ 64) := by
  have hkeys :
      (((List.enumFrom 0 names).map
          (fun p => (p.2, (base + p.1 * stride % 2 ^ 64) % 2 ^ 64))).map Prod.fst).Nodup := by
    rw [List.map_map]
    have : (Prod.fst ∘ fun p : Nat × String =>
        (p.2, (base + p.1 * stride % 2 ^ 64) % 2 ^ 64)) = Prod.snd := rfl
    rw [this, List.enumFrom_map_snd]
    exact hnd
  refine ⟨(List.enumFrom 0 names).map
      (fun p => (p.2, (base + p.1 * stride % 2 ^ 64) % 2 ^ 64)), ?_, ?_⟩
  · unfold assign_symbolic_addrs
    rw [show (names.map TomlVal.str).enum = List.enumFrom 0 (names.map TomlVal.str) from rfl]
    rw [mapM_enumFrom_str names 0 base stride]
    show Except.ok
        (((List.enumFrom 0 names).map
            (fun p => (p.2, (base + p.1 * stride % 2 ^ 64) % 2 ^ 64))).foldl
          (fun m p => alist_insert m p.1 p.2) []) = _
    rw [foldl_alist_insert_fresh _ [] (by simpa using hkeys)]
    rfl
  · intro i h
    have := lookup_enum_pairs names base stride hnd 0 i h
    simpa using this

/-- C5 counterexample: for the duplicated symbolic list `["x", "x"]` with
`base = 0`, `stride = 8`, parsing succeeds but `symbolic_addrs["x"] = 8`
(the LAST occurrence's address), so the claimed equation fails at `i = 0`
(which demands `0`). -/
theorem C5_symbolic_addrs_counterexample :
    assign_symbolic_addrs [TomlVal.str "x", TomlVal.str "x"] 0 8 =
      Except.ok [("x", 8)] ∧
    ¬ (∃ m, assign_symbolic_addrs ((["x", "x"] : List String).map TomlVal.str) 0 8 =
        Except.ok m ∧
      ∀ i (h : i < (["x", "x"] : List String).length),
        alist_lookup m ((["x", "x"] : List String).get ⟨i, h⟩) =
          some ((0 + i * 8 % 2 ^ 64) % 2 ^ 64)) := by
  refine ⟨rfl, ?_⟩
  rintro ⟨m, hm, hl⟩
  have hme : m = [("x", 8)] := by
    have : Except.ok (ε := String) m = Except.ok [("x", 8)] := by
      rw [← hm]
      rfl
    exact Except.ok.inj this
  subst hme
  have h0 := hl 0 (by simp)
  simp [alist_lookup, List.find?] at h0

/-- C5 witness: the theorem at the spec's own scenario — `symbolic = ["x","y"]`
with `base = 0x100000`, `stride = 8`. -/
theorem C5_symbolic_addrs_in_declaration_order_witness :
    ∃ m, assign_symbolic_addrs ((["x", "y"] : List String).map TomlVal.str) 1048576 8 =
        Except.ok m ∧
      ∀ i (h : i < (["x", "y"] : List String).length),
        alist_lookup m ((["x", "y"] : List String).get ⟨i, h⟩) =
          some ((1048576 + i * 8 % 2 ^ 64) % 2 ^ 64) :=
  C5_symbolic_addrs_in_declaration_order ["x", "y"] 1048576 8 (by decide)

theorem option_mapM_map {α β γ : Type} (l : List α) (g : α → β) (f : β → Option γ) :
    (l.map g).mapM f = l.mapM (fun a => f (g a)) := by
  induction l with
  | nil => rfl
  | cons a l ih => simp only [List.map_cons, List.mapM_cons, ih]

theorem option_mapM_attach {α β : Type} (l : List α) (f : α → Option β) :
    l.attach.mapM (fun s => f s.1) = l.mapM f := by
  conv_rhs => rw [← List.attach_map_subtype_val l]
  rw [option_mapM_map]

theorem option_mapM_congr {α β : Type} (l : List α) (f g : α → Option β)
    (h : ∀ a ∈ l, f a = g a) : l.mapM f = l.mapM g := by
  induction l with
  | nil => rfl
  | cons a l ih =>
    simp only [List.mapM_cons, h a (List.mem_cons_self a l)]
    rw [ih fun a ha => h a (List.mem_cons_of_mem _ ha)]

theorem spec_loc_schema_not_register (symtab renames : List (String × Nat)) (f : String)
    (xs : List Sexp) (hf : f ≠ "register") :
    spec_loc_schema symtab renames (Sexp.List (Sexp.Atom f :: xs)) = none := by
  rw [spec_loc_schema.eq_def]
  split
  · rename_i s1 s2 heq
    rw [Sexp.List.injEq, List.cons.injEq] at heq
    exact absurd (Sexp.Atom.inj heq.1) hf
  · rfl

theorem loc_from_sexp_eq_spec (symtab renames : List (String × Nat)) (s : Sexp) :
    litmus_loc_from_sexp s symtab renames = spec_loc_schema symtab renames s := by
  match s with
  | Sexp.Atom a => rfl
  | Sexp.I64 m => rfl
  | Sexp.List [] => rfl
  | Sexp.List (Sexp.I64 m :: rest) => rfl
  | Sexp.List (Sexp.List ys :: rest) => rfl
  | Sexp.List (Sexp.Atom f :: rest) =>
    by_cases hf : f = "register"
    · subst hf
      match rest with
      | [] => rfl
      | [a] => rfl
      | [a, b] => rfl
      | a :: b :: c :: more => rfl
    · have hb : (f == "register") = false := beq_eq_false_iff_ne.mpr hf
      rw [spec_loc_schema_not_register symtab renames f rest hf]
      simp [litmus_loc_from_sexp, Sexp.is_fn, hb]

theorem prop_from_sexp_atom_other (symtab renames : List (String × Nat)) (f : String)
    (rest : List Sexp) (h1 : f ≠ "=") (h2 : f ≠ "and") (h3 : f ≠ "or") (h4 : f ≠ "=>")
    (h5 : f ≠ "not") :
    prop_from_sexp symtab renames (Sexp.List (Sexp.Atom f :: rest)) = none := by
  rw [prop_from_sexp.eq_def]
  have b1 : (f == "=") = false := beq_eq_false_iff_ne.mpr h1
  have b2 : (f == "and") = false := beq_eq_false_iff_ne.mpr h2
  have b3 : (f == "or") = false := beq_eq_false_iff_ne.mpr h3
  have b4 : (f == "=>") = false := beq_eq_false_iff_ne.mpr h4
  have b5 : (f == "not") = false := beq_eq_false_iff_ne.mpr h5
  simp [Sexp.is_fn, b1, b2, b3, b4, b5]

theorem spec_assertion_schema_atom_other (symtab renames : List (String × Nat)) (f : String)
    (rest : List Sexp) (h1 : f ≠ "=") (h2 : f ≠ "and") (h3 : f ≠ "or") (h4 : f ≠ "=>")
    (h5 : f ≠ "not") :
    spec_assertion_schema symtab renames (Sexp.List (Sexp.Atom f :: rest)) = none := by
  rw [spec_assertion_schema.eq_def]
  split
  · rename_i l v heq
    rw [Sexp.List.injEq, List.cons.injEq] at heq
    exact absurd (Sexp.Atom.inj heq.1) h1
  · rename_i p ps heq
    rw [Sexp.List.injEq, List.cons.injEq] at heq
    exact absurd (Sexp.Atom.inj heq.1) h2
  · rename_i p ps heq
    rw [Sexp.List.injEq, List.cons.injEq] at heq
    exact absurd (Sexp.Atom.inj heq.1) h3
  · rename_i p q heq
    rw [Sexp.List.injEq, List.cons.injEq] at heq
    exact absurd (Sexp.Atom.inj heq.1) h4
  · rename_i p heq
    rw [Sexp.List.injEq, List.cons.injEq] at heq
    exact absurd (Sexp.Atom.inj heq.1) h5
  · rfl

theorem prop_from_sexp_eq_spec_bounded (symtab renames : List (String × Nat)) :
    ∀ (n : Nat) (t : Sexp), sizeOf t ≤ n →
      prop_from_sexp symtab renames t = spec_assertion_schema symtab renames t := by
  intro n
  induction n with
  | zero =>
    intro t ht
    exact absurd ht (by cases t <;> simp)
  | succ n ih =>
    intro t ht
    cases t with
    | Atom a => rw [prop_from_sexp.eq_def, spec_assertion_schema.eq_def]
    | I64 m => rw [prop_from_sexp.eq_def, spec_assertion_schema.eq_def]
    | List xs =>
      rcases xs with - | ⟨x, rest⟩
      · rw [prop_from_sexp.eq_def, spec_assertion_schema.eq_def]
        rfl
      rcases x with f | m | ys
      case I64 =>
        rw [prop_from_sexp.eq_def, spec_assertion_schema.eq_def]
        rfl
      case List =>
        rw [prop_from_sexp.eq_def, spec_assertion_schema.eq_def]
        rfl
      case Atom =>
        have hsub : ∀ a ∈ rest, sizeOf a ≤ n := by
          intro a ha
          have h1 := List.sizeOf_lt_of_mem ha
          simp at ht
          omega
        by_cases h1 : f = "="
        · subst h1
          rcases rest with - | ⟨l, rest⟩
          · rw [prop_from_sexp.eq_def, spec_assertion_schema.eq_def]
            rfl
          rcases rest with - | ⟨v, rest⟩
          · rw [prop_from_sexp.eq_def, spec_assertion_schema.eq_def]
            rfl
          rcases rest with - | ⟨w, rest⟩
          · rw [prop_from_sexp.eq_def, spec_assertion_schema.eq_def]
            simp [Sexp.is_fn, loc_from_sexp_eq_spec]
          · rw [prop_from_sexp.eq_def, spec_assertion_schema.eq_def]
            rfl
        by_cases h2 : f = "and"
        · subst h2
          rcases rest with - | ⟨p, ps⟩
          · rw [prop_from_sexp.eq_def, spec_assertion_schema.eq_def]
            rfl
          · have hL : prop_from_sexp symtab renames (Sexp.List (Sexp.Atom "and" :: p :: ps)) =
                ((p :: ps).attach.mapM (fun s => prop_from_sexp symtab renames s.1)).map
                  LProp.And := by
              rw [prop_from_sexp.eq_def]
              simp [Sexp.is_fn]
            have hR : spec_assertion_schema symtab renames
                  (Sexp.List (Sexp.Atom "and" :: p :: ps)) =
                ((p :: ps).attach.mapM
                  (fun s => spec_assertion_schema symtab renames s.1)).map LProp.And := by
              rw [spec_assertion_schema.eq_def]
              simp [Sexp.is_fn]
            rw [hL, hR, option_mapM_attach, option_mapM_attach,
              option_mapM_congr (p :: ps) _ _ (fun a ha => ih a (hsub a ha))]
        by_cases h3 : f = "or"
        · subst h3
          rcases rest with - | ⟨p, ps⟩
          · rw [prop_from_sexp.eq_def, spec_assertion_schema.eq_def]
            rfl
          · have hL : prop_from_sexp symtab renames (Sexp.List (Sexp.Atom "or" :: p :: ps)) =
                ((p :: ps).attach.mapM (fun s => prop_from_sexp symtab renames s.1)).map
                  LProp.Or := by
              rw [prop_from_sexp.eq_def]
              simp [Sexp.is_fn]
            have hR : spec_assertion_schema symtab renames
                  (Sexp.List (Sexp.Atom "or" :: p :: ps)) =
                ((p :: ps).attach.mapM
                  (fun s => spec_assertion_schema symtab renames s.1)).map LProp.Or := by
              rw [spec_assertion_schema.eq_def]
              simp [Sexp.is_fn]
            rw [hL, hR, option_mapM_attach, option_mapM_attach,
              option_mapM_congr (p :: ps) _ _ (fun a ha => ih a (hsub a ha))]
        by_cases h4 : f = "=>"
        · subst h4
          rcases rest with - | ⟨p, rest⟩
          · rw [prop_from_sexp.eq_def, spec_assertion_schema.eq_def]
            rfl
          rcases rest with - | ⟨q, rest⟩
          · rw [prop_from_sexp.eq_def, spec_assertion_schema.eq_def]
            rfl
          rcases rest with - | ⟨w, rest⟩
          · rw [prop_from_sexp.eq_def, spec_assertion_schema.eq_def]
            simp [Sexp.is_fn, ih p (hsub p (by simp)), ih q (hsub q (by simp))]
          · rw [prop_from_sexp.eq_def, spec_assertion_schema.eq_def]
            rfl
        by_cases h5 : f = "not"
        · subst h5
          rcases rest with - | ⟨p, rest⟩
          · rw [prop_from_sexp.eq_def, spec_assertion_schema.eq_def]
            rfl
          rcases rest with - | ⟨q, rest⟩
          · rw [prop_from_sexp.eq_def, spec_assertion_schema.eq_def]
            simp [Sexp.is_fn, ih p (hsub p (by simp))]
          · rw [prop_from_sexp.eq_def, spec_assertion_schema.eq_def]
            rfl
        · rw [prop_from_sexp_atom_other symtab renames f rest h1 h2 h3 h4 h5,
            spec_assertion_schema_atom_other symtab renames f rest h1 h2 h3 h4 h5]

/-- C6: `Prop::from_sexp` translates final-assertion S-expressions exactly
according to the spec's schema — `(= loc value)` to `EqLoc`, `(and p…)` and
`(or p…)` with at least one operand to `And`/`Or`, `(not p)` with exactly one
argument to `Not`, `(=> p q)` with exactly two arguments to `Implies`, and
`none` on every other shape — and `Litmus::parse`'s final-assertion step then
fails with exactly `"Cannot parse final assertion"` whenever the schema does
not apply. -/
theorem C6_prop_from_sexp_matches_schema (symtab renames : List (String × Nat)) (s : Sexp) :
    prop_from_sexp symtab renames s = spec_assertion_schema symtab renames s ∧
    parse_final_assertion symtab renames s =
      (match spec_assertion_schema symtab renames s with
        | some p => Except.ok p
        | none => Except.error "Cannot parse final assertion") := by
  have h := prop_from_sexp_eq_spec_bounded symtab renames (sizeOf s) s le_rfl
  refine ⟨h, ?_⟩
  unfold parse_final_assertion
  rw [h]

theorem mask_lower_list_full (w : Nat) :
    (List.range w).map (fun i => decide (i < w)) = List.replicate w true := by
  apply List.eq_replicate_iff.mpr
  constructor
  · simp
  · intro b hb
    simp only [List.mem_map, List.mem_range] at hb
    obtain ⟨i, hi, rfl⟩ := hb
    simp [hi]

theorem bits_val_replicate_true (w : Nat) :
    bits_val (List.replicate w true) = 2 ^ w - 1 := by
  induction w with
  | zero => rfl
  | succ n ih =>
    rw [List.replicate_succ]
    show 1 + 2 * bits_val (List.replicate n true) = 2 ^ (n + 1) - 1
    rw [ih]
    have h1 : 1 ≤ 2 ^ n := Nat.one_le_two_pow
    rw [pow_succ]
    omega

theorem eval_mask_lower_full (M : Nat → SmtVal) (w : Nat) :
    eval_exp M (smt_mask_lower w w) = some (SmtVal.bv w (2 ^ w - 1)) := by
  simp only [smt_mask_lower, eval_exp, mask_lower_list_full, List.length_replicate,
    bits_val_replicate_true]

theorem sbits_set_slice_zero_full (b u : Sbits) (hl : b.length = u.length)
    (hu : u.bits < 2 ^ u.length) : b.set_slice 0 u = ⟨b.length, u.bits⟩ := by
  unfold Sbits.set_slice
  rw [Sbits.mk.injEq]
  refine ⟨rfl, ?_⟩
  rw [hl, Nat.shiftLeft_zero, Nat.shiftLeft_zero, Nat.mod_eq_of_lt hu]
  rcases Nat.eq_zero_or_pos u.length with hz | hp
  · rw [hz] at hu ⊢
    interval_cases u.bits
    simp
  · have : (2 ^ u.length - 1) % 2 ^ u.length = 2 ^ u.length - 1 :=
      Nat.mod_eq_of_lt (by have := Nat.one_le_two_pow (n := u.length); omega)
    rw [this, Nat.xor_self, Nat.and_zero, Nat.zero_or]

theorem set_slice_n0_sym_eq (w : Nat) (hw : w ≠ 0) (bitsExp update : Exp) (s : Solver) :
    set_slice_n0_sym w w bitsExp update s =
      (PrimOut.ok (Val.Symbolic s.fresh_count),
        Solver.add { s with fresh_count := s.fresh_count + 1 }
          (SmtDef.DefineConst s.fresh_count
            (Exp.Bvor (Exp.Bvand bitsExp (Exp.Bvnot (smt_mask_lower w w))) update))) := by
  unfold set_slice_n0_sym
  rw [if_neg hw, if_neg hw, if_pos rfl]
  rfl

theorem set_slice_n0_sym_sem (w : Nat) (hw : w ≠ 0) (bitsExp : Exp) (uvar : Nat)
    (s : Solver) (M : Nat → SmtVal) (x xu : Nat)
    (hbits : eval_exp M bitsExp = some (SmtVal.bv w x))
    (hudef : M uvar = SmtVal.bv w xu)
    (hsat : satisfies_defs M ((set_slice_n0_sym w w bitsExp (Exp.Var uvar) s).2).defs) :
    (set_slice_n0_sym w w bitsExp (Exp.Var uvar) s).1 =
      PrimOut.ok (Val.Symbolic s.fresh_count) ∧
    M s.fresh_count = SmtVal.bv w xu := by
  have heq := set_slice_n0_sym_eq w hw bitsExp (Exp.Var uvar) s
  refine ⟨by rw [heq], ?_⟩
  have hmem : SmtDef.DefineConst s.fresh_count
      (Exp.Bvor (Exp.Bvand bitsExp (Exp.Bvnot (smt_mask_lower w w))) (Exp.Var uvar)) ∈
      ((set_slice_n0_sym w w bitsExp (Exp.Var uvar) s).2).defs := by
    rw [heq]
    simp [Solver.add]
  have hdef : eval_exp M
      (Exp.Bvor (Exp.Bvand bitsExp (Exp.Bvnot (smt_mask_lower w w))) (Exp.Var uvar)) =
      some (M s.fresh_count) := hsat _ hmem
  have h1 : eval_exp M (Exp.Bvnot (smt_mask_lower w w)) = some (SmtVal.bv w 0) := by
    show (match eval_exp M (smt_mask_lower w w) with
      | some (SmtVal.bv w1 x1) => some (SmtVal.bv w1 (2 ^ w1 - 1 - x1))
      | _ => none) = some (SmtVal.bv w 0)
    rw [eval_mask_lower_full]
    simp
  have h2 : eval_exp M (Exp.Bvand bitsExp (Exp.Bvnot (smt_mask_lower w w))) =
      some (SmtVal.bv w 0) := by
    show (match eval_exp M bitsExp, eval_exp M (Exp.Bvnot (smt_mask_lower w w)) with
      | some (SmtVal.bv w1 x1), some (SmtVal.bv w2 x2) =>
        if w1 = w2 then some (SmtVal.bv w1 (x1 &&& x2)) else none
      | _, _ => none) = some (SmtVal.bv w 0)
    rw [hbits, h1]
    simp [Nat.and_zero]
  have he : eval_exp M
      (Exp.Bvor (Exp.Bvand bitsExp (Exp.Bvnot (smt_mask_lower w w))) (Exp.Var uvar)) =
      some (SmtVal.bv w xu) := by
    show (match eval_exp M (Exp.Bvand bitsExp (Exp.Bvnot (smt_mask_lower w w))),
        eval_exp M (Exp.Var uvar) with
      | some (SmtVal.bv w1 x1), some (SmtVal.bv w2 x2) =>
        if w1 = w2 then some (SmtVal.bv w1 (x1 ||| x2)) else none
      | _, _ => none) = some (SmtVal.bv w xu)
    rw [h2, show eval_exp M (Exp.Var uvar) = some (M uvar) from rfl, hudef]
    simp [Nat.zero_or]
  rw [he] at hdef
  exact (Option.some.inj hdef).symm

theorem length_bits_symbolic (s : Solver) (v w : Nat)
    (h : length_bits (Val.Symbolic v) s = Except.ok w) : Solver.length s v = some w := by
  simp only [length_bits] at h
  cases hsl : Solver.length s v with
  | none => rw [hsl] at h; exact absurd h (by simp)
  | some len =>
    rw [hsl] at h
    exact congrArg some (Except.ok.inj h)

/-- C9: full-width overwrite.  For every bitvector value `bv` (concrete or
symbolic) and update `bv'` of the SAME width `w`, `set_slice_internal` at
offset `I128(0)` succeeds, and the result denotes the same bitvector as `bv'`
in every well-formed model of the emitted SMT definitions. -/
theorem C9_set_slice_full_width_overwrite (bv upd : Val) (s : Solver) (w : Nat)
    (hb : length_bits bv s = Except.ok w)
    (hu : length_bits upd s = Except.ok w)
    (hwf : ∀ u, upd = Val.Bits u → u.bits < 2 ^ u.length) :
    ∃ r s2, set_slice_internal bv (Val.I128 0) upd s = (PrimOut.ok r, s2) ∧
      ∀ M : Nat → SmtVal, wf_model M → model_matches_lengths M s.lengths →
        satisfies_defs M s2.defs → val_interp M r = val_interp M upd := by
  have hlen : ∀ v len, Solver.length s v = some len →
      ∀ M : Nat → SmtVal, model_matches_lengths M s.lengths → ∃ x, M v = SmtVal.bv len x := by
    intro v len hv M hM
    exact hM v len hv
  cases bv with
  | Bits b =>
    have hbw : b.length = w := Except.ok.inj hb
    cases upd with
    | Bits u =>
      have huw : u.length = w := Except.ok.inj hu
      refine ⟨Val.Bits (b.set_slice (u32cast 0) u), s, ?_, ?_⟩
      · simp only [set_slice_internal, hb, hu]
      · intro M hwfM hML hsat
        rw [show u32cast 0 = 0 from rfl,
          sbits_set_slice_zero_full b u (hbw.trans huw.symm) (hwf u rfl)]
        simp [val_interp, hbw, huw]
    | Symbolic uvar =>
      have hul : Solver.length s uvar = some w := by
        simp only [length_bits] at hu
        cases hsl : Solver.length s uvar with
        | none => rw [hsl] at hu; exact absurd hu (by simp)
        | some len =>
          rw [hsl] at hu
          exact congrArg some (Except.ok.inj hu)
      rcases Nat.eq_zero_or_pos w with hz | hp
      · subst hz
        refine ⟨Val.Bits (Sbits.zeros 0), s, ?_, ?_⟩
        · simp only [set_slice_internal, hb, hu]
          rw [if_pos trivial]
          unfold set_slice_n0_sym
          rw [if_pos rfl]
        · intro M hwfM hML hsat
          obtain ⟨x, hx⟩ := hlen uvar 0 hul M hML
          have hx0 : x = 0 := by
            have := hwfM uvar
            rw [hx] at this
            simpa using this
          simp [val_interp, Sbits.zeros, hx, hx0]
      · have hw0 : w ≠ 0 := Nat.pos_iff_ne_zero.mp hp
        refine ⟨Val.Symbolic s.fresh_count,
          (set_slice_n0_sym w w (smt_sbits b) (Exp.Var uvar) s).2, ?_, ?_⟩
        · simp only [set_slice_internal, hb, hu]
          rw [if_pos trivial, set_slice_n0_sym_eq w hw0]
        · intro M hwfM hML hsat
          obtain ⟨xu, hxu⟩ := hlen uvar w hul M hML
          have hbits : eval_exp M (smt_sbits b) = some (SmtVal.bv w (b.bits % 2 ^ w)) := by
            simp [smt_sbits, eval_exp, hbw]
          have hsem := set_slice_n0_sym_sem w hw0 (smt_sbits b) uvar s M
            (b.bits % 2 ^ w) xu hbits hxu hsat
          simp [val_interp, hsem.2, hxu]
    | I64 n => exact absurd hu (by simp [length_bits])
    | I128 n => exact absurd hu (by simp [length_bits])
    | Bool bb => exact absurd hu (by simp [length_bits])
    | String st => exact absurd hu (by simp [length_bits])
    | Unit => exact absurd hu (by simp [length_bits])
    | Vector vs => exact absurd hu (by simp [length_bits])
    | List vs => exact absurd hu (by simp [length_bits])
    | Enum e => exact absurd hu (by simp [length_bits])
    | Struct fs => exact absurd hu (by simp [length_bits])
    | Ref rn => exact absurd hu (by simp [length_bits])
    | Poison => exact absurd hu (by simp [length_bits])
  | Symbolic bvar =>
    cases upd with
    | Bits u =>
      refine ⟨Val.Bits u, s, ?_, ?_⟩
      · simp [set_slice_internal, hb, hu]
      · intro M hwfM hML hsat
        rfl
    | Symbolic uvar =>
      have hbl := length_bits_symbolic s bvar w hb
      have hul := length_bits_symbolic s uvar w hu
      rcases Nat.eq_zero_or_pos w with hz | hp
      · subst hz
        refine ⟨Val.Bits (Sbits.zeros 0), s, ?_, ?_⟩
        · simp only [set_slice_internal, hb, hu]
          rw [if_pos trivial]
          unfold set_slice_n0_sym
          rw [if_pos rfl]
        · intro M hwfM hML hsat
          obtain ⟨x, hx⟩ := hML uvar 0 hul
          have hx0 : x = 0 := by
            have := hwfM uvar
            rw [hx] at this
            simpa using this
          simp [val_interp, Sbits.zeros, hx, hx0]
      · have hw0 : w ≠ 0 := Nat.pos_iff_ne_zero.mp hp
        refine ⟨Val.Symbolic s.fresh_count,
          (set_slice_n0_sym w w (Exp.Var bvar) (Exp.Var uvar) s).2, ?_, ?_⟩
        · simp only [set_slice_internal, hb, hu]
          rw [if_pos trivial, set_slice_n0_sym_eq w hw0]
        · intro M hwfM hML hsat
          obtain ⟨xu, hxu⟩ := hML uvar w hul
          obtain ⟨xb, hxb⟩ := hML bvar w hbl
          have hbits : eval_exp M (Exp.Var bvar) = some (SmtVal.bv w xb) := by
            simp [eval_exp, hxb]
          have hsem := set_slice_n0_sym_sem w hw0 (Exp.Var bvar) uvar s M xb xu hbits
            hxu hsat
          simp [val_interp, hsem.2, hxu]
    | I64 n => exact absurd hu (by simp [length_bits])
    | I128 n => exact absurd hu (by simp [length_bits])
    | Bool bb => exact absurd hu (by simp [length_bits])
    | String st => exact absurd hu (by simp [length_bits])
    | Unit => exact absurd hu (by simp [length_bits])
    | Vector vs => exact absurd hu (by simp [length_bits])
    | List vs => exact absurd hu (by simp [length_bits])
    | Enum e => exact absurd hu (by simp [length_bits])
    | Struct fs => exact absurd hu (by simp [length_bits])
    | Ref rn => exact absurd hu (by simp [length_bits])
    | Poison => exact absurd hu (by simp [length_bits])
  | I64 n => exact absurd hb (by simp [length_bits])
  | I128 n => exact absurd hb (by simp [length_bits])
  | Bool bb => exact absurd hb (by simp [length_bits])
  | String st => exact absurd hb (by simp [length_bits])
  | Unit => exact absurd hb (by simp [length_bits])
  | Vector vs => exact absurd hb (by simp [length_bits])
  | List vs => exact absurd hb (by simp [length_bits])
  | Enum e => exact absurd hb (by simp [length_bits])
  | Struct fs => exact absurd hb (by simp [length_bits])
  | Ref rn => exact absurd hb (by simp [length_bits])
  | Poison => exact absurd hb (by simp [length_bits])

/-- C9 witness: the theorem at two symbolic operands of width 8 over a solver
that knows both widths. -/
theorem C9_set_slice_full_width_overwrite_witness :
    ∃ r s2, set_slice_internal (Val.Symbolic 0) (Val.I128 0) (Val.Symbolic 1)
        ⟨2, [], [(0, 8), (1, 8)]⟩ = (PrimOut.ok r, s2) ∧
      ∀ M : Nat → SmtVal, wf_model M → model_matches_lengths M [(0, 8), (1, 8)] →
        satisfies_defs M s2.defs → val_interp M r = val_interp M (Val.Symbolic 1) :=
  C9_set_slice_full_width_overwrite (Val.Symbolic 0) (Val.Symbolic 1)
    ⟨2, [], [(0, 8), (1, 8)]⟩ 8 rfl rfl (fun u h => nomatch h)

/-- C1 witness: the theorem at the symbolic index `v = 5` and an empty solver. -/
theorem C1_op_slice_zero_shortcircuit_witness :
    op_slice (Val.Bits ⟨16, 0xABCD⟩) (Val.I64 4) 8 ⟨0, [], []⟩ =
      (PrimOut.ok (Val.Bits ⟨8, 0xBC⟩), ⟨0, [], []⟩) ∧
    op_slice (Val.Bits ⟨64, 0⟩) (Val.Symbolic 5) 4 ⟨0, [], []⟩ =
      (PrimOut.ok (Val.Bits ⟨64, 0⟩), ⟨0, [], []⟩) ∧
    Sbits.mk 64 0 ≠ Sbits.mk 4 0 :=
  C1_op_slice_zero_shortcircuit 5 ⟨0, [], []⟩

/-- C8 witness: idempotence and the no-remaining-`Call` guarantee at a
concrete program `[Val 7, Val 8, Fn 8 [Call _ 7 _]]`. -/
theorem C8_insert_primops_idempotent_witness :
    insert_primops ((insert_primops [Def.Val 7 [] Ty.Unit, Def.Val 8 [] Ty.Unit,
        Def.Fn 8 [] [Instr.Call (AstLoc.Id 0) false 7 []]]).2) =
      insert_primops [Def.Val 7 [] Ty.Unit, Def.Val 8 [] Ty.Unit,
        Def.Fn 8 [] [Instr.Call (AstLoc.Id 0) false 7 []]] ∧
    (∀ f args body, Def.Fn f args body ∈
        (insert_primops [Def.Val 7 [] Ty.Unit, Def.Val 8 [] Ty.Unit,
          Def.Fn 8 [] [Instr.Call (AstLoc.Id 0) false 7 []]]).2 →
      ∀ i ∈ body, ∀ g, call_target i = some g →
        sig_only [Def.Val 7 [] Ty.Unit, Def.Val 8 [] Ty.Unit,
          Def.Fn 8 [] [Instr.Call (AstLoc.Id 0) false 7 []]] g = false) :=
  C8_insert_primops_idempotent [Def.Val 7 [] Ty.Unit, Def.Val 8 [] Ty.Unit,
    Def.Fn 8 [] [Instr.Call (AstLoc.Id 0) false 7 []]]
